import Mathlib

/-!
Shallow embedding of the ffsvm-rust SVM core (src/svm/csvm.rs, src/svm/problem.rs,
src/vectors/simdoptimized.rs) in Lean 4.  Machine floats (f32/f64) are modelled as
exact rationals: all claims settled here are about control flow, data-structure
shape and exact algebraic structure, none about rounding.  Parts of the repository
whose sources are not vendored (the parser's data model, the `Class`, `Triangular`
and kernel implementations, `predict.rs`) are modelled from the spec and marked so
in their doc comments.
-/

namespace Ffsvm

/-- Truncating dot product: the Rust code forms `a.iter().zip(b).map(|(x,y)| x*y).sum()`,
which pairs elements up to the shorter list. -/
def dot (a b : List ℚ) : List ℚ :=
  List.zipWith (fun x y => x * y) a b

def dotSum (a b : List ℚ) : ℚ := (dot a b).sum

/-- `forRange s len f st` runs `st := f st k` for `k = s, s+1, …, s+len-1` in order:
the embedding of a Rust `for k in s..s+len` loop over mutable state. -/
def forRange {St : Type} (s : ℕ) : ℕ → (St → ℕ → St) → St → St
  | 0, _, st => st
  | len + 1, f, st => f (forRange s len f st) (s + len)

/-- Embedding of `SimdOptimized<T>` (src/vectors/simdoptimized.rs) at element type ℚ:
a flat row-major buffer with `vectors` rows of stride `vector_length`. -/
structure SimdOptimized where
  vectors : ℕ
  attributes : ℕ
  vector_length : ℕ
  data : List ℚ
deriving DecidableEq

instance : Inhabited SimdOptimized := ⟨⟨0, 0, 0, []⟩⟩

/-- `SimdOptimized::with_dimension(vectors, attributes, default)`: the preferred
length equals `attributes` (the SIMD padding is disabled in the source). -/
def SimdOptimized.with_dimension (vectors attributes : ℕ) (default : ℚ) : SimdOptimized :=
  { vectors := vectors
    attributes := attributes
    vector_length := attributes
    data := List.replicate (vectors * attributes) default }

/-- `SimdOptimized::offset(vector, attribute)` from the source. -/
def SimdOptimized.offset (m : SimdOptimized) (v a : ℕ) : ℕ :=
  v * m.vector_length + a

/-- Row access `&m[i]`: the `vector_length`-sized slice starting at `offset i 0`. -/
def SimdOptimized.row (m : SimdOptimized) (i : ℕ) : List ℚ :=
  (m.data.drop (m.offset i 0)).take m.vector_length

/-- Element read `m[(a, b)]` (reads the flat buffer at the computed offset). -/
def SimdOptimized.getAt (m : SimdOptimized) (a b : ℕ) : ℚ :=
  m.data.getD (m.offset a b) 0

/-- Element write `m[(a, b)] = v`; Rust's `Vec` indexing panics when the flat
offset is out of bounds, which we surface as `none`. -/
def SimdOptimized.setAt (m : SimdOptimized) (a b : ℕ) (v : ℚ) : Option SimdOptimized :=
  if m.offset a b < m.data.length then
    some { m with data := m.data.set (m.offset a b) v }
  else
    none

/-- Modelled from the spec: the `Triangular<T>` store (vectors/triangular.rs is not
vendored).  §4.2: data for unordered pairs `(i, j)` with symmetric addressing; the
flat `n·(n−1)/2` layout is abstracted to its lookup function, which is what every
vendored use of the store reads and writes through. -/
structure Triangular where
  n : ℕ
  get : ℕ → ℕ → ℚ

instance : Inhabited Triangular := ⟨⟨0, fun _ _ => 0⟩⟩

/-- Modelled from the spec: `Triangular::with_dimension(n, default)` fills the whole
store with the default value. -/
def Triangular.with_dimension (n : ℕ) (default : ℚ) : Triangular :=
  ⟨n, fun _ _ => default⟩

/-- Modelled from the spec: symmetric write — `(i, j)` and `(j, i)` address the
same cell. -/
def Triangular.set (t : Triangular) (i j : ℕ) (v : ℚ) : Triangular :=
  ⟨t.n, fun a b => if (a = i ∧ b = j) ∨ (a = j ∧ b = i) then v else t.get a b⟩

/-- Modelled from the spec: materialising a triangular store for `n` classes from
the flat lower-triangular list of the model header (§4.4 step 3).  The index map
is the standard row-major upper-triangle enumeration. -/
def Triangular.ofList (n : ℕ) (l : List ℚ) : Triangular :=
  ⟨n, fun a b =>
    let i := min a b
    let j := max a b
    l.getD (i * n + j - (i * (i + 3)) / 2 - 1) 0⟩

/-- Modelled from the spec: a `Class` record (src/svm/class.rs is not vendored) —
per-class label, support-vector matrix of shape `(num_sv, num_attributes)` and
coefficient matrix of shape `(num_classes − 1, num_sv)`. -/
structure Class where
  label : ℕ
  num_sv : ℕ
  support_vectors : SimdOptimized
  coefficients : SimdOptimized

instance : Inhabited Class := ⟨⟨0, 0, default, default⟩⟩

/-- Modelled from the spec: `Class::with_parameters(num_classes, num_sv,
num_attributes, label)` allocates both matrices zero-filled at the §3 shapes. -/
def Class.with_parameters (num_classes num_sv num_attributes label : ℕ) : Class :=
  { label := label
    num_sv := num_sv
    support_vectors := SimdOptimized.with_dimension num_sv num_attributes 0
    coefficients := SimdOptimized.with_dimension (num_classes - 1) num_sv 0 }

/-- The kernel variants constructed by `CSVM::try_from` (only `rbf` and `linear`
appear in the vendored match). -/
inductive Kernel where
  | rbf (gamma : ℚ)
  | linear
deriving DecidableEq

instance : Inhabited Kernel := ⟨.linear⟩

/-- Modelled from the spec (§7): the error kinds of `SVMError` (errors.rs is not
vendored; the vendored code constructs `AttributesUnordered` and
`IterationsExceeded`). -/
inductive SVMError where
  | attributesUnordered (index : ℕ) (last_index : ℕ) (value : ℚ)
  | unsupportedKernel (name : String)
  | unsupportedSvmType
  | modelInconsistent
  | iterationsExceeded
  | parserError
deriving DecidableEq

/-- Embedding of `Probabilities` (the optional sigmoid-calibration pair). -/
structure Probabilities where
  a : Triangular
  b : Triangular

/-- Embedding of `CSVM` (src/svm/csvm.rs). -/
structure CSVM where
  num_total_sv : ℕ
  num_attributes : ℕ
  rho : Triangular
  probabilities : Option Probabilities
  kernel : Kernel
  classes : List Class

/-- Embedding of `Problem` (src/svm/problem.rs). -/
structure Problem where
  features : List ℚ
  kernel_values : SimdOptimized
  vote : List ℕ
  decision_values : Triangular
  pairwise : SimdOptimized
  probabilities : List ℚ
  label : ℕ

/-- `Problem::with_dimension(total_sv, num_classes, num_attributes)`
(src/svm/problem.rs lines 33–47): every buffer allocated at full size with the
numeric default (zero). -/
def Problem.with_dimension (total_sv num_classes num_attributes : ℕ) : Problem :=
  { features := List.replicate num_attributes 0
    kernel_values := SimdOptimized.with_dimension num_classes total_sv 0
    pairwise := SimdOptimized.with_dimension num_classes num_classes 0
    decision_values := Triangular.with_dimension num_classes 0
    vote := List.replicate num_classes 0
    probabilities := List.replicate num_classes 0
    label := 0 }

/-- C6: `Problem::with_dimension(total_sv, num_classes, num_attributes)` returns a
Problem whose features vector has length `num_attributes`, whose kernel-values
matrix has shape `(num_classes, total_sv)`, whose pairwise matrix has shape
`(num_classes, num_classes)`, whose decision-values triangular store covers
`num_classes` classes, whose vote and probabilities vectors have length
`num_classes`, and whose numeric contents are all zero. -/
theorem c6_with_dimension_shape (total_sv num_classes num_attributes : ℕ) :
    (Problem.with_dimension total_sv num_classes num_attributes).features =
      List.replicate num_attributes 0 ∧
    (Problem.with_dimension total_sv num_classes num_attributes).kernel_values.vectors =
      num_classes ∧
    (Problem.with_dimension total_sv num_classes num_attributes).kernel_values.attributes =
      total_sv ∧
    (Problem.with_dimension total_sv num_classes num_attributes).kernel_values.data =
      List.replicate (num_classes * total_sv) 0 ∧
    (Problem.with_dimension total_sv num_classes num_attributes).pairwise.vectors =
      num_classes ∧
    (Problem.with_dimension total_sv num_classes num_attributes).pairwise.attributes =
      num_classes ∧
    (Problem.with_dimension total_sv num_classes num_attributes).pairwise.data =
      List.replicate (num_classes * num_classes) 0 ∧
    (Problem.with_dimension total_sv num_classes num_attributes).decision_values.n =
      num_classes ∧
    (∀ i j : ℕ,
      (Problem.with_dimension total_sv num_classes num_attributes).decision_values.get i j
        = 0) ∧
    (Problem.with_dimension total_sv num_classes num_attributes).vote =
      List.replicate num_classes 0 ∧
    (Problem.with_dimension total_sv num_classes num_attributes).probabilities =
      List.replicate num_classes 0 := by
  refine ⟨rfl, rfl, rfl, rfl, rfl, rfl, rfl, rfl, fun i j => rfl, rfl, rfl⟩

/-! ## Decision values (`CSVM::compute_decision_values`, csvm.rs lines 149–199) -/

/-- `util::set_all(&mut v, x)`: overwrite every element, keeping the length. -/
def set_all (l : List ℕ) (v : ℕ) : List ℕ := l.map (fun _ => v)

/-- The ordered class pairs `(i, j)` with `i < j < n`, in the order the nested
`for i { for j in i+1.. }` loops of `compute_decision_values` visit them. -/
def pairs (n : ℕ) : List (ℕ × ℕ) :=
  (List.range n).flatMap (fun i => ((List.range n).drop (i + 1)).map (fun j => (i, j)))

/-- The decision value `sum0 + sum1 - rho[(i, j)]` computed in the pair loop:
class i's coefficient row `j - 1` against kernel-values row i, plus class j's
coefficient row `i` against kernel-values row j, minus the pair's rho. -/
def decisionValue (classes : List Class) (rho : Triangular) (kv : SimdOptimized)
    (i j : ℕ) : ℚ :=
  dotSum ((classes.getD i default).coefficients.row (j - 1)) (kv.row i)
    + dotSum ((classes.getD j default).coefficients.row i) (kv.row j)
    - rho.get i j

/-- `if sum > 0.0 { i } else { j }`: the class voted for at pair `(i, j)`. -/
def voteIndex (classes : List Class) (rho : Triangular) (kv : SimdOptimized)
    (p : ℕ × ℕ) : ℕ :=
  if 0 < decisionValue classes rho kv p.1 p.2 then p.1 else p.2

/-- One iteration of the pair loop: store the decision value and bump the vote. -/
def decisionStep (classes : List Class) (rho : Triangular) (kv : SimdOptimized)
    (st : Triangular × List ℕ) (p : ℕ × ℕ) : Triangular × List ℕ :=
  let sum := decisionValue classes rho kv p.1 p.2
  let index_to_vote := voteIndex classes rho kv p
  (st.1.set p.1 p.2 sum, st.2.set index_to_vote (st.2.getD index_to_vote 0 + 1))

/-- `CSVM::compute_decision_values`: reset all votes, then walk every pair
`(i, j)`, `i < j`, storing decision values and votes. -/
def compute_decision_values (svm : CSVM) (problem : Problem) : Problem :=
  let st := (pairs svm.classes.length).foldl
    (decisionStep svm.classes svm.rho problem.kernel_values)
    (problem.decision_values, set_all problem.vote 0)
  { problem with decision_values := st.1, vote := st.2 }

theorem Triangular.get_set_self (t : Triangular) (i j : ℕ) (v : ℚ) :
    (t.set i j v).get i j = v := by
  simp [Triangular.set]

theorem Triangular.get_set_of_ne (t : Triangular) (a b i j : ℕ) (v : ℚ)
    (h : ¬((i = a ∧ j = b) ∨ (i = b ∧ j = a))) :
    (t.set a b v).get i j = t.get i j := by
  simp only [Triangular.set]
  exact if_neg h

theorem mem_drop_range {m n j : ℕ} : j ∈ (List.range n).drop m ↔ m ≤ j ∧ j < n := by
  rw [List.mem_drop_iff_getElem]
  constructor
  · rintro ⟨i, h, rfl⟩
    simp only [List.length_drop, List.length_range] at h
    simp only [List.getElem_range]
    omega
  · rintro ⟨h1, h2⟩
    refine ⟨j - m, by simp only [List.length_drop, List.length_range]; omega, ?_⟩
    simp only [List.getElem_range]
    omega

theorem mem_pairs {n : ℕ} {p : ℕ × ℕ} : p ∈ pairs n ↔ p.1 < p.2 ∧ p.2 < n := by
  cases p with
  | mk i j =>
    simp only [pairs, List.mem_flatMap, List.mem_map, List.mem_range]
    constructor
    · rintro ⟨a, ha, b, hb, hab⟩
      obtain ⟨h1, h2⟩ := Prod.mk.injEq .. ▸ hab
      subst h1; subst h2
      have := mem_drop_range.mp hb
      exact ⟨by omega, this.2⟩
    · rintro ⟨h1, h2⟩
      exact ⟨i, by omega, j, mem_drop_range.mpr ⟨by omega, h2⟩, rfl⟩

theorem pairs_nodup (n : ℕ) : (pairs n).Nodup := by
  rw [pairs, List.nodup_flatMap]
  constructor
  · intro i _
    exact ((List.nodup_range n).sublist (List.drop_sublist _ _)).map
      (fun a b h => by simpa using congrArg Prod.snd h)
  · have : (List.range n).Pairwise (· ≠ ·) := (List.nodup_range n)
    refine this.imp ?_
    intro a b hab
    intro x hxa hxb
    simp only [Function.comp, List.mem_map] at hxa hxb
    obtain ⟨ja, _, rfl⟩ := hxa
    obtain ⟨jb, _, h⟩ := hxb
    exact hab (by simpa using congrArg Prod.fst h.symm)

theorem dv_foldl_preserve (classes : List Class) (rho : Triangular) (kv : SimdOptimized)
    (i j : ℕ) (hij : i < j) :
    ∀ (l : List (ℕ × ℕ)) (st : Triangular × List ℕ),
      (∀ p ∈ l, p.1 < p.2) → (i, j) ∉ l →
      (l.foldl (decisionStep classes rho kv) st).1.get i j = st.1.get i j := by
  intro l
  induction l with
  | nil => intro st _ _; rfl
  | cons p l ih =>
    intro st hcanon hmem
    have hp : p.1 < p.2 := hcanon p (List.mem_cons_self ..)
    have step1 : (decisionStep classes rho kv st p).1.get i j = st.1.get i j := by
      apply Triangular.get_set_of_ne
      rintro (⟨rfl, rfl⟩ | ⟨rfl, rfl⟩)
      · exact hmem (by simp)
      · omega
    calc ((p :: l).foldl (decisionStep classes rho kv) st).1.get i j
        = (l.foldl (decisionStep classes rho kv) (decisionStep classes rho kv st p)).1.get i j
          := rfl
      _ = (decisionStep classes rho kv st p).1.get i j :=
          ih _ (fun q hq => hcanon q (List.mem_cons_of_mem _ hq))
            (fun h => hmem (List.mem_cons_of_mem _ h))
      _ = st.1.get i j := step1

theorem dv_foldl_value (classes : List Class) (rho : Triangular) (kv : SimdOptimized)
    (i j : ℕ) (hij : i < j) :
    ∀ (l : List (ℕ × ℕ)) (st : Triangular × List ℕ),
      (∀ p ∈ l, p.1 < p.2) → l.Nodup → (i, j) ∈ l →
      (l.foldl (decisionStep classes rho kv) st).1.get i j
        = decisionValue classes rho kv i j := by
  intro l
  induction l with
  | nil => intro st _ _ h; exact absurd h (List.not_mem_nil _)
  | cons p l ih =>
    intro st hcanon hnd hmem
    rcases List.mem_cons.mp hmem with heq | htail
    · subst heq
      have hnotin : (i, j) ∉ l := (List.nodup_cons.mp hnd).1
      calc ((⟨i, j⟩ :: l).foldl (decisionStep classes rho kv) st).1.get i j
          = (l.foldl (decisionStep classes rho kv)
              (decisionStep classes rho kv st (i, j))).1.get i j := rfl
        _ = (decisionStep classes rho kv st (i, j)).1.get i j :=
            dv_foldl_preserve classes rho kv i j hij l _
              (fun q hq => hcanon q (List.mem_cons_of_mem _ hq)) hnotin
        _ = decisionValue classes rho kv i j := Triangular.get_set_self ..
    · exact ih _ (fun q hq => hcanon q (List.mem_cons_of_mem _ hq))
        (List.nodup_cons.mp hnd).2 htail

theorem getD_set_self (l : List ℕ) (i v : ℕ) (h : i < l.length) :
    (l.set i v).getD i 0 = v := by
  rw [List.getD_eq_getElem?_getD, List.getElem?_set_self (by simpa using h)]
  rfl

theorem getD_set_ne (l : List ℕ) (i c v : ℕ) (h : i ≠ c) :
    (l.set i v).getD c 0 = l.getD c 0 := by
  rw [List.getD_eq_getElem?_getD, List.getElem?_set_ne h, ← List.getD_eq_getElem?_getD]

theorem vote_foldl_count (classes : List Class) (rho : Triangular) (kv : SimdOptimized) :
    ∀ (l : List (ℕ × ℕ)) (st : Triangular × List ℕ) (c : ℕ),
      (∀ p ∈ l, p.1 < st.2.length ∧ p.2 < st.2.length) →
      (l.foldl (decisionStep classes rho kv) st).2.getD c 0
        = st.2.getD c 0 + l.countP (fun p => voteIndex classes rho kv p == c) := by
  intro l
  induction l with
  | nil => intro st c _; simp [List.countP_nil]
  | cons p l ih =>
    intro st c hb
    have hp := hb p (List.mem_cons_self ..)
    have hw : voteIndex classes rho kv p < st.2.length := by
      unfold voteIndex
      split <;> [exact hp.1; exact hp.2]
    have hlen : (decisionStep classes rho kv st p).2.length = st.2.length :=
      List.length_set ..
    have hb' : ∀ q ∈ l, q.1 < (decisionStep classes rho kv st p).2.length ∧
        q.2 < (decisionStep classes rho kv st p).2.length := by
      intro q hq; rw [hlen]; exact hb q (List.mem_cons_of_mem _ hq)
    have hrec := ih (decisionStep classes rho kv st p) c hb'
    calc ((p :: l).foldl (decisionStep classes rho kv) st).2.getD c 0
        = (decisionStep classes rho kv st p).2.getD c 0
            + l.countP (fun q => voteIndex classes rho kv q == c) := hrec
      _ = st.2.getD c 0 + (p :: l).countP (fun q => voteIndex classes rho kv q == c) := by
          rw [List.countP_cons]
          by_cases hc : voteIndex classes rho kv p = c
          · subst hc
            rw [show (decisionStep classes rho kv st p).2
                  = st.2.set (voteIndex classes rho kv p)
                      (st.2.getD (voteIndex classes rho kv p) 0 + 1) from rfl]
            rw [getD_set_self _ _ _ hw]
            simp only [beq_self_eq_true, if_true]
            omega
          · rw [show (decisionStep classes rho kv st p).2
                  = st.2.set (voteIndex classes rho kv p)
                      (st.2.getD (voteIndex classes rho kv p) 0 + 1) from rfl]
            rw [getD_set_ne _ _ _ _ hc]
            have : (voteIndex classes rho kv p == c) = false := by
              simpa using hc
            rw [this]
            simp

theorem sum_set_succ (l : List ℕ) (i : ℕ) (h : i < l.length) :
    (l.set i (l.getD i 0 + 1)).sum = l.sum + 1 := by
  rw [List.sum_set]
  rw [if_pos h, List.getD_eq_getElem l 0 h]
  have hdecomp : l.sum = (l.take i).sum + (l.drop i).sum := (List.sum_take_add_sum_drop l i).symm
  rw [List.drop_eq_getElem_cons h] at hdecomp
  simp only [List.sum_cons] at hdecomp
  omega

theorem vote_foldl_sum (classes : List Class) (rho : Triangular) (kv : SimdOptimized) :
    ∀ (l : List (ℕ × ℕ)) (st : Triangular × List ℕ),
      (∀ p ∈ l, p.1 < st.2.length ∧ p.2 < st.2.length) →
      (l.foldl (decisionStep classes rho kv) st).2.sum = st.2.sum + l.length := by
  intro l
  induction l with
  | nil => intro st _; simp
  | cons p l ih =>
    intro st hb
    have hp := hb p (List.mem_cons_self ..)
    have hw : voteIndex classes rho kv p < st.2.length := by
      unfold voteIndex
      split <;> [exact hp.1; exact hp.2]
    have hlen : (decisionStep classes rho kv st p).2.length = st.2.length :=
      List.length_set ..
    have hb' : ∀ q ∈ l, q.1 < (decisionStep classes rho kv st p).2.length ∧
        q.2 < (decisionStep classes rho kv st p).2.length := by
      intro q hq; rw [hlen]; exact hb q (List.mem_cons_of_mem _ hq)
    have : (decisionStep classes rho kv st p).2.sum = st.2.sum + 1 :=
      sum_set_succ st.2 _ hw
    calc ((p :: l).foldl (decisionStep classes rho kv) st).2.sum
        = (decisionStep classes rho kv st p).2.sum + l.length := ih _ hb'
      _ = st.2.sum + (p :: l).length := by rw [this, List.length_cons]; omega

theorem sum_map_add_one (l : List ℕ) (f : ℕ → ℕ) :
    (l.map (fun x => f x + 1)).sum = (l.map f).sum + l.length := by
  induction l with
  | nil => simp
  | cons a l ih => simp only [List.map_cons, List.sum_cons, List.length_cons, ih]; omega

theorem pairs_length (n : ℕ) : 2 * (pairs n).length = n * (n - 1) := by
  have hlen : ∀ m : ℕ, (pairs m).length = ((List.range m).map (fun i => m - (i + 1))).sum := by
    intro m
    rw [pairs, List.length_flatMap]
    congr 1
    apply List.map_congr_left
    intro i _
    simp [List.length_map, List.length_drop, List.length_range]
  rw [hlen]
  induction n with
  | zero => simp
  | succ n ih =>
    rw [List.range_succ, List.map_append, List.sum_append]
    have h1 : (List.range n).map (fun i => n + 1 - (i + 1)) = (List.range n).map (fun i => n - i) := by
      apply List.map_congr_left
      intro i hi
      have := List.mem_range.mp hi
      omega
    have h2 : (List.range n).map (fun i => n - i) = (List.range n).map (fun i => (n - (i + 1)) + 1) := by
      apply List.map_congr_left
      intro i hi
      have := List.mem_range.mp hi
      omega
    rw [h1, h2, sum_map_add_one]
    simp only [List.map_cons, List.map_nil, List.sum_cons, List.sum_nil, List.length_range]
    have e1 : (n + 1) * (n + 1 - 1) = n * (n - 1) + 2 * n := by
      cases n with
      | zero => rfl
      | succ m => simp only [Nat.add_sub_cancel]; ring
    omega

/-- C1: for every model with `i < j < n` classes and every problem (sized for the
model), `compute_decision_values` stores at `decision_values[(i, j)]` the value
`dot(class i's coefficient row (j−1), kernel row i) + dot(class j's coefficient
row i, kernel row j) − rho[(i, j)]`, and the final vote counter of every class c
equals the number of pairs whose decision value votes for c (class i when the
value is positive, class j otherwise). -/
theorem c1_compute_decision_values (svm : CSVM) (problem : Problem) (i j : ℕ)
    (hij : i < j) (hj : j < svm.classes.length)
    (hv : problem.vote.length = svm.classes.length) :
    (compute_decision_values svm problem).decision_values.get i j
      = dotSum ((svm.classes.getD i default).coefficients.row (j - 1))
          (problem.kernel_values.row i)
        + dotSum ((svm.classes.getD j default).coefficients.row i)
            (problem.kernel_values.row j)
        - svm.rho.get i j ∧
    (∀ c : ℕ,
      (compute_decision_values svm problem).vote.getD c 0
        = (pairs svm.classes.length).countP
            (fun p => voteIndex svm.classes svm.rho problem.kernel_values p == c)) := by
  have hbound : ∀ p ∈ pairs svm.classes.length,
      p.1 < (set_all problem.vote 0).length ∧ p.2 < (set_all problem.vote 0).length := by
    intro p hp
    have := mem_pairs.mp hp
    simp only [set_all, List.length_map, hv]
    omega
  constructor
  · exact dv_foldl_value svm.classes svm.rho problem.kernel_values i j hij
      (pairs svm.classes.length) _
      (fun p hp => (mem_pairs.mp hp).1) (pairs_nodup _)
      (mem_pairs.mpr ⟨hij, hj⟩)
  · intro c
    have := vote_foldl_count svm.classes svm.rho problem.kernel_values
      (pairs svm.classes.length) (problem.decision_values, set_all problem.vote 0) c hbound
    calc (compute_decision_values svm problem).vote.getD c 0
        = (set_all problem.vote 0).getD c 0
          + (pairs svm.classes.length).countP
              (fun p => voteIndex svm.classes svm.rho problem.kernel_values p == c) := this
      _ = (pairs svm.classes.length).countP
              (fun p => voteIndex svm.classes svm.rho problem.kernel_values p == c) := by
          have : (set_all problem.vote 0).getD c 0 = 0 := by
            simp only [set_all, List.getD_eq_getElem?_getD, List.getElem?_map]
            cases problem.vote[c]? <;> rfl
          rw [this]
          omega

/-- Witness for C1 at a concrete two-class model. -/
theorem c1_compute_decision_values_witness :
    (compute_decision_values
        { num_total_sv := 2, num_attributes := 1
          rho := Triangular.with_dimension 2 0
          probabilities := none
          kernel := .linear
          classes :=
            [ { label := 7, num_sv := 1
                support_vectors := ⟨1, 1, 1, [1]⟩
                coefficients := ⟨1, 1, 1, [1]⟩ },
              { label := 3, num_sv := 1
                support_vectors := ⟨1, 1, 1, [0]⟩
                coefficients := ⟨1, 1, 1, [-1]⟩ } ] }
        { features := [1]
          kernel_values := ⟨2, 1, 1, [1, 0]⟩
          vote := [0, 0]
          decision_values := Triangular.with_dimension 2 0
          pairwise := SimdOptimized.with_dimension 2 2 0
          probabilities := [0, 0]
          label := 0 }).decision_values.get 0 1 = 1 := by
  have h := c1_compute_decision_values
    { num_total_sv := 2, num_attributes := 1
      rho := Triangular.with_dimension 2 0
      probabilities := none
      kernel := .linear
      classes :=
        [ { label := 7, num_sv := 1
            support_vectors := ⟨1, 1, 1, [1]⟩
            coefficients := ⟨1, 1, 1, [1]⟩ },
          { label := 3, num_sv := 1
            support_vectors := ⟨1, 1, 1, [0]⟩
            coefficients := ⟨1, 1, 1, [-1]⟩ } ] }
    { features := [1]
      kernel_values := ⟨2, 1, 1, [1, 0]⟩
      vote := [0, 0]
      decision_values := Triangular.with_dimension 2 0
      pairwise := SimdOptimized.with_dimension 2 2 0
      probabilities := [0, 0]
      label := 0 }
    0 1 (by decide) (by decide) (by decide)
  rw [h.1]
  norm_num [dotSum, dot, SimdOptimized.row, SimdOptimized.offset,
    Triangular.with_dimension, List.getD]

/-- C10: `compute_decision_values` resets the votes, so the counters sum to
`n·(n−1)/2` and the result does not depend on the vote values held before. -/
theorem c10_votes_reset (svm : CSVM) (problem : Problem) (v' : List ℕ)
    (hv : problem.vote.length = svm.classes.length)
    (hv' : v'.length = problem.vote.length) :
    (compute_decision_values svm problem).vote.sum
      = svm.classes.length * (svm.classes.length - 1) / 2 ∧
    compute_decision_values svm { problem with vote := v' }
      = compute_decision_values svm problem := by
  have hbound : ∀ p ∈ pairs svm.classes.length,
      p.1 < (set_all problem.vote 0).length ∧ p.2 < (set_all problem.vote 0).length := by
    intro p hp
    have := mem_pairs.mp hp
    simp only [set_all, List.length_map, hv]
    omega
  constructor
  · have hsum := vote_foldl_sum svm.classes svm.rho problem.kernel_values
      (pairs svm.classes.length) (problem.decision_values, set_all problem.vote 0) hbound
    have hzero : (set_all problem.vote 0).sum = 0 := by
      simp [set_all, List.map_const]
    have hlen := pairs_length svm.classes.length
    calc (compute_decision_values svm problem).vote.sum
        = (set_all problem.vote 0).sum + (pairs svm.classes.length).length := hsum
      _ = (pairs svm.classes.length).length := by rw [hzero]; omega
      _ = svm.classes.length * (svm.classes.length - 1) / 2 := by omega
  · have hreset : set_all v' 0 = set_all problem.vote 0 := by
      unfold set_all
      rw [show (fun (_ : ℕ) => (0 : ℕ)) = Function.const ℕ 0 from rfl,
        List.map_const, List.map_const, hv']
    unfold compute_decision_values
    simp only [hreset]

/-- Witness for C10 at the same concrete two-class model. -/
theorem c10_votes_reset_witness :
    (compute_decision_values
        { num_total_sv := 2, num_attributes := 1
          rho := Triangular.with_dimension 2 0
          probabilities := none
          kernel := .linear
          classes :=
            [ { label := 7, num_sv := 1
                support_vectors := ⟨1, 1, 1, [1]⟩
                coefficients := ⟨1, 1, 1, [1]⟩ },
              { label := 3, num_sv := 1
                support_vectors := ⟨1, 1, 1, [0]⟩
                coefficients := ⟨1, 1, 1, [-1]⟩ } ] }
        { features := [1]
          kernel_values := ⟨2, 1, 1, [1, 0]⟩
          vote := [9, 4]
          decision_values := Triangular.with_dimension 2 0
          pairwise := SimdOptimized.with_dimension 2 2 0
          probabilities := [0, 0]
          label := 0 }).vote.sum = 2 * (2 - 1) / 2 :=
  (c10_votes_reset
    { num_total_sv := 2, num_attributes := 1
      rho := Triangular.with_dimension 2 0
      probabilities := none
      kernel := .linear
      classes :=
        [ { label := 7, num_sv := 1
            support_vectors := ⟨1, 1, 1, [1]⟩
            coefficients := ⟨1, 1, 1, [1]⟩ },
          { label := 3, num_sv := 1
            support_vectors := ⟨1, 1, 1, [0]⟩
            coefficients := ⟨1, 1, 1, [-1]⟩ } ] }
    { features := [1]
      kernel_values := ⟨2, 1, 1, [1, 0]⟩
      vote := [9, 4]
      decision_values := Triangular.with_dimension 2 0
      pairwise := SimdOptimized.with_dimension 2 2 0
      probabilities := [0, 0]
      label := 0 }
    [0, 0] (by decide) (by decide)).1

/-! ## Probability coupling (`CSVM::compute_multiclass_probabilities`,
csvm.rs lines 66–146) -/

/-- A pointwise-updatable matrix, used for the `q` scratch (the mutable matrix
view `problem.q.flat_mut()` of the source). -/
def upd (m : ℕ → ℕ → ℚ) (i j : ℕ) (v : ℚ) : ℕ → ℕ → ℚ :=
  fun a b => if a = i ∧ b = j then v else m a b

theorem upd_self (m : ℕ → ℕ → ℚ) (i j : ℕ) (v : ℚ) : upd m i j v i j = v := by
  simp [upd]

theorem upd_ne (m : ℕ → ℕ → ℚ) (i j : ℕ) (v : ℚ) (a b : ℕ) (h : ¬(a = i ∧ b = j)) :
    upd m i j v a b = m a b := by
  simp only [upd]
  exact if_neg h

/-- Inner loop body for `j in 0..t` (csvm.rs lines 84–87): accumulate `r_jt²`
into the diagonal, then copy `q[(t,j)] = q[(j,t)]`. -/
def innerLow (r : ℕ → ℕ → ℚ) (t : ℕ) (q : ℕ → ℕ → ℚ) (j : ℕ) : ℕ → ℕ → ℚ :=
  let qa := upd q t t (q t t + r j t * r j t)
  upd qa t j (qa j t)

/-- Inner loop body for `j in t+1..n` (csvm.rs lines 89–92): accumulate `r_jt²`
into the diagonal, then set `q[(t,j)] = -r_jt · r_tj`. -/
def innerHigh (r : ℕ → ℕ → ℚ) (t : ℕ) (q : ℕ → ℕ → ℚ) (j : ℕ) : ℕ → ℕ → ℚ :=
  let qa := upd q t t (q t t + r j t * r j t)
  upd qa t j (-(r j t) * r t j)

/-- One outer iteration `t` of the Q-building loop (csvm.rs lines 79–93):
`p[t] = 1/n`, `q[(t,t)] = 0`, then the two inner loops. -/
def buildStep (n : ℕ) (r : ℕ → ℕ → ℚ) (st : (ℕ → ℕ → ℚ) × List ℚ) (t : ℕ) :
    (ℕ → ℕ → ℚ) × List ℚ :=
  (forRange (t + 1) (n - (t + 1)) (innerHigh r t)
    (forRange 0 t (innerLow r t) (upd st.1 t t 0)),
   st.2.set t (1 / (n : ℚ)))

/-- The Q-building phase: matrix Q and the `1/n`-initialised probabilities. -/
def buildQP (n : ℕ) (r : ℕ → ℕ → ℚ) (p0 : List ℚ) : (ℕ → ℕ → ℚ) × List ℚ :=
  forRange 0 n (buildStep n r) (fun _ _ => 0, p0)

/-- `Qp`: for each `t`, `Σ_j q[(t,j)] · p[j]` (csvm.rs lines 99–104). -/
def qpVec (n : ℕ) (q : ℕ → ℕ → ℚ) (p : List ℚ) : List ℚ :=
  (List.range n).map (fun t => ((List.range n).map (fun j => q t j * p.getD j 0)).sum)

/-- `pQp = Σ_t p[t] · Qp[t]` (csvm.rs line 106). -/
def pqpVal (n : ℕ) (q : ℕ → ℕ → ℚ) (p : List ℚ) : ℚ :=
  ((List.range n).map (fun t => p.getD t 0 * (qpVec n q p).getD t 0)).sum

/-- `max_error` over the `qp` entries (csvm.rs lines 111–119). -/
def maxError (qp : List ℚ) (pqp : ℚ) : ℚ :=
  qp.foldl (fun m x => max m |x - pqp|) 0

/-- The convergence test `max_error < eps`, `eps = 0.005 / n` (csvm.rs
lines 74 and 121). -/
def convTest (n : ℕ) (q : ℕ → ℕ → ℚ) (p : List ℚ) : Bool :=
  maxError (qpVec n q p) (pqpVal n q p) < (5 / 1000 : ℚ) / (n : ℚ)

/-- The update pass (csvm.rs lines 132–142): for each `t`,
`diff = (−Qp[t] + pQp)/q[(t,t)]`, bump `p[t]`, rescale `pQp`, then rescale
every `Qp[j]` and `p[j]` by `1 + diff`.  `Qp`/`pQp` are recomputed from scratch
at the head of every outer iteration, so only `p` flows across iterations. -/
def probStep (n : ℕ) (q : ℕ → ℕ → ℚ) (p : List ℚ) : List ℚ :=
  (forRange 0 n (fun (st : List ℚ × List ℚ × ℚ) t =>
    let diff := (-(st.2.1.getD t 0) + st.2.2) / q t t
    let p1 := st.1.set t (st.1.getD t 0 + diff)
    let pqp1 := (st.2.2 + diff * (diff * q t t + 2 * st.2.1.getD t 0)) / (1 + diff) / (1 + diff)
    let inner := forRange 0 n (fun (st2 : List ℚ × List ℚ) j =>
      (st2.1.set j ((st2.1.getD j 0 + diff * q t j) / (1 + diff)),
       st2.2.set j (st2.2.getD j 0 / (1 + diff)))) (st.2.1, p1)
    (inner.2, inner.1, pqp1))
    (p, qpVec n q p, pqpVal n q p)).1

/-- The iteration loop `for i in 0..=max_iter` (csvm.rs lines 96–143), with
`fuel` the number of update passes still allowed: test convergence, break with
`Ok` when met, fail with `IterationsExceeded` when the fuel is spent, otherwise
update and continue. -/
def probLoop (n : ℕ) (q : ℕ → ℕ → ℚ) : ℕ → List ℚ → Except SVMError (List ℚ)
  | 0, p => if convTest n q p then .ok p else .error .iterationsExceeded
  | fuel + 1, p => if convTest n q p then .ok p else probLoop n q fuel (probStep n q p)

/-- The matrix Q as built by `compute_multiclass_probabilities` from the
problem's pairwise matrix. -/
def couplingQ (svm : CSVM) (problem : Problem) : ℕ → ℕ → ℚ :=
  (buildQP svm.classes.length (fun a b => problem.pairwise.getAt a b)
    problem.probabilities).1

/-- The probabilities vector as initialised by the Q-building loop. -/
def couplingP0 (svm : CSVM) (problem : Problem) : List ℚ :=
  (buildQP svm.classes.length (fun a b => problem.pairwise.getAt a b)
    problem.probabilities).2

/-- `CSVM::compute_multiclass_probabilities`: build Q and the uniform start
vector from the pairwise matrix, then iterate with
`max_iter = 100.max(num_classes)`. -/
def compute_multiclass_probabilities (svm : CSVM) (problem : Problem) :
    Except SVMError Problem :=
  (probLoop svm.classes.length (couplingQ svm problem)
    (max 100 svm.classes.length) (couplingP0 svm problem)).map
    (fun p => { problem with probabilities := p })

/-- Generic invariant rule for `forRange`. -/
theorem forRange_inv {St : Type} (P : ℕ → St → Prop) (s len : ℕ) (f : St → ℕ → St)
    (st : St) (h0 : P s st)
    (hstep : ∀ k stk, s ≤ k → k < s + len → P k stk → P (k + 1) (f stk k)) :
    P (s + len) (forRange s len f st) := by
  induction len with
  | zero => exact h0
  | succ len ih =>
    have hmid : P (s + len) (forRange s len f st) :=
      ih (fun k stk hk hk2 hP => hstep k stk hk (by omega) hP)
    have := hstep (s + len) (forRange s len f st) (by omega) (by omega) hmid
    rw [show s + (len + 1) = s + len + 1 by omega]
    exact this

theorem getD_set_self' {α : Type} (l : List α) (i : ℕ) (v d : α) (h : i < l.length) :
    (l.set i v).getD i d = v := by
  rw [List.getD_eq_getElem?_getD, List.getElem?_set_self (by simpa using h)]
  rfl

theorem getD_set_ne' {α : Type} (l : List α) (i c : ℕ) (v d : α) (h : i ≠ c) :
    (l.set i v).getD c d = l.getD c d := by
  rw [List.getD_eq_getElem?_getD, List.getElem?_set_ne h, ← List.getD_eq_getElem?_getD]

/-- The closed form of the matrix Q built by the loop. -/
def qSpec (n : ℕ) (r : ℕ → ℕ → ℚ) (a b : ℕ) : ℚ :=
  if a = b then
    (((List.range n).filter (fun j => j ≠ a)).map (fun j => r j a * r j a)).sum
  else
    -(r b a) * r a b

theorem filter_range_succ_self (k : ℕ) :
    (List.range (k + 1)).filter (fun j => j ≠ k) = (List.range k).filter (fun j => j ≠ k) := by
  rw [List.range_succ, List.filter_append]
  have : ([k].filter (fun j => j ≠ k)) = [] := by simp
  rw [this, List.append_nil]

theorem filter_range_succ_ne (m k : ℕ) (h : m ≠ k) :
    (List.range (m + 1)).filter (fun j => j ≠ k)
      = ((List.range m).filter (fun j => j ≠ k)) ++ [m] := by
  rw [List.range_succ, List.filter_append]
  congr 1
  simp [h]

theorem buildQP_spec (n : ℕ) (r : ℕ → ℕ → ℚ) (p0 : List ℚ) (hp : p0.length = n) :
    (∀ a b, a < n → b < n → (buildQP n r p0).1 a b = qSpec n r a b) ∧
    (∀ a, a < n → (buildQP n r p0).2.getD a 0 = 1 / (n : ℚ)) ∧
    (buildQP n r p0).2.length = n := by
  have main : ∀ t (st : (ℕ → ℕ → ℚ) × List ℚ),
      ((∀ a b, a < t → b < n → st.1 a b = qSpec n r a b) ∧
       (∀ a, a < t → st.2.getD a 0 = 1 / (n : ℚ)) ∧ st.2.length = n) →
      t < n →
      ((∀ a b, a < t + 1 → b < n → (buildStep n r st t).1 a b = qSpec n r a b) ∧
       (∀ a, a < t + 1 → (buildStep n r st t).2.getD a 0 = 1 / (n : ℚ)) ∧
       (buildStep n r st t).2.length = n) := by
    intro t st hInv htn
    obtain ⟨hq, hpv, hlen⟩ := hInv
    have phase1 :
        (forRange 0 t (innerLow r t) (upd st.1 t t 0)) t t
          = (((List.range t).filter (fun j => j ≠ t)).map (fun j => r j t * r j t)).sum ∧
        (∀ b, b < t →
          (forRange 0 t (innerLow r t) (upd st.1 t t 0)) t b = qSpec n r t b) ∧
        (∀ a b, a ≠ t →
          (forRange 0 t (innerLow r t) (upd st.1 t t 0)) a b = st.1 a b) := by
      have h := forRange_inv
        (fun m q =>
          q t t = (((List.range m).filter (fun j => j ≠ t)).map (fun j => r j t * r j t)).sum ∧
          (∀ b, b < m → q t b = qSpec n r t b) ∧
          (∀ a b, a ≠ t → q a b = st.1 a b))
        0 t (innerLow r t) (upd st.1 t t 0)
        ⟨by rw [upd_self]; simp, fun b hb => absurd hb (Nat.not_lt_zero b),
          fun a b ha => upd_ne _ _ _ _ _ _ (fun hc => ha hc.1)⟩
        ?_
      · rw [Nat.zero_add] at h
        exact h
      · intro m q hm0 hmt hP
        obtain ⟨hdiag, hrow, hpres⟩ := hP
        rw [Nat.zero_add] at hmt
        have hmnet : m ≠ t := by omega
        simp only [innerLow]
        refine ⟨?_, ?_, ?_⟩
        · rw [upd_ne _ _ _ _ _ _ (fun hc => hmnet hc.2.symm), upd_self,
            filter_range_succ_ne m t hmnet, List.map_append, List.sum_append, hdiag]
          simp
        · intro b hb
          rcases Nat.lt_or_ge b m with hbm | hbm
          · rw [upd_ne _ _ _ _ _ _ (fun hc => (by omega : b ≠ m) hc.2),
              upd_ne _ _ _ _ _ _ (fun hc => (by omega : b ≠ t) hc.2)]
            exact hrow b hbm
          · have hbm' : b = m := by omega
            subst hbm'
            rw [upd_self]
            have h1 : (upd q t t (q t t + r b t * r b t)) b t = q b t :=
              upd_ne _ _ _ _ _ _ (fun hc => hmnet hc.1)
            rw [h1, hpres b t hmnet, hq b t (by omega) htn]
            show qSpec n r b t = qSpec n r t b
            unfold qSpec
            rw [if_neg (by omega : ¬ b = t), if_neg (by omega : ¬ t = b)]
            ring
        · intro a b ha
          rw [upd_ne _ _ _ _ _ _ (fun hc => ha hc.1),
            upd_ne _ _ _ _ _ _ (fun hc => ha hc.1)]
          exact hpres a b ha
    have phase2 :
        (∀ b, b < n → (buildStep n r st t).1 t b = qSpec n r t b) ∧
        (∀ a b, a ≠ t → (buildStep n r st t).1 a b = st.1 a b) := by
      obtain ⟨hd1, hr1, hp1⟩ := phase1
      simp only [buildStep]
      have h := forRange_inv
        (fun m q =>
          q t t = (((List.range m).filter (fun j => j ≠ t)).map (fun j => r j t * r j t)).sum ∧
          (∀ b, b < m → b ≠ t → q t b = qSpec n r t b) ∧
          (∀ a b, a ≠ t → q a b = st.1 a b))
        (t + 1) (n - (t + 1)) (innerHigh r t)
        (forRange 0 t (innerLow r t) (upd st.1 t t 0))
        ⟨by rw [filter_range_succ_self]; exact hd1,
         fun b hb _ => hr1 b (by omega),
         hp1⟩
        ?_
      · rw [show t + 1 + (n - (t + 1)) = n by omega] at h
        obtain ⟨hdiag, hrow, hpres⟩ := h
        refine ⟨?_, hpres⟩
        intro b hb
        rcases eq_or_ne b t with rfl | hbt
        · show _ = qSpec n r b b
          rw [hdiag]
          unfold qSpec
          rw [if_pos rfl]
        · exact hrow b hb hbt
      · intro m q hm0 hmn hP
        obtain ⟨hdiag, hrow, hpres⟩ := hP
        have hmnet : m ≠ t := by omega
        simp only [innerHigh]
        refine ⟨?_, ?_, ?_⟩
        · rw [upd_ne _ _ _ _ _ _ (fun hc => hmnet hc.2.symm), upd_self,
            filter_range_succ_ne m t hmnet, List.map_append, List.sum_append, hdiag]
          simp
        · intro b hb hbt
          rcases Nat.lt_or_ge b m with hbm | hbm
          · rw [upd_ne _ _ _ _ _ _ (fun hc => (by omega : b ≠ m) hc.2),
              upd_ne _ _ _ _ _ _ (fun hc => hbt hc.2)]
            exact hrow b hbm hbt
          · have hbm' : b = m := by omega
            subst hbm'
            rw [upd_self]
            unfold qSpec
            rw [if_neg (by omega : ¬ t = b)]
        · intro a b ha
          rw [upd_ne _ _ _ _ _ _ (fun hc => ha hc.1),
            upd_ne _ _ _ _ _ _ (fun hc => ha hc.1)]
          exact hpres a b ha
    obtain ⟨hrown, hothers⟩ := phase2
    refine ⟨?_, ?_, ?_⟩
    · intro a b ha hb
      rcases eq_or_ne a t with rfl | hat
      · exact hrown b hb
      · rw [hothers a b hat]
        exact hq a b (by omega) hb
    · intro a ha
      show (st.2.set t (1 / (n : ℚ))).getD a 0 = _
      rcases eq_or_ne a t with rfl | hat
      · exact getD_set_self' _ _ _ _ (by omega)
      · rw [getD_set_ne' _ _ _ _ _ (fun h => hat h.symm)]
        exact hpv a (by omega)
    · show (st.2.set t (1 / (n : ℚ))).length = n
      rw [List.length_set]
      exact hlen
  have h := forRange_inv
    (fun t (st : (ℕ → ℕ → ℚ) × List ℚ) =>
      (∀ a b, a < t → b < n → st.1 a b = qSpec n r a b) ∧
      (∀ a, a < t → st.2.getD a 0 = 1 / (n : ℚ)) ∧ st.2.length = n)
    0 n (buildStep n r) (fun _ _ => 0, p0)
    ⟨fun a b ha _ => absurd ha (Nat.not_lt_zero a),
     fun a ha => absurd ha (Nat.not_lt_zero a), hp⟩
    (fun k st hk0 hkn hP => main k st hP (by omega))
  rw [Nat.zero_add] at h
  exact h
theorem forRange_zero {St : Type} (s : ℕ) (f : St → ℕ → St) (st : St) :
    forRange s 0 f st = st := rfl

theorem forRange_succ {St : Type} (s len : ℕ) (f : St → ℕ → St) (st : St) :
    forRange s (len + 1) f st = f (forRange s len f st) (s + len) := rfl

/-- Concrete two-class linear model used as a witness fixture. -/
def svmW : CSVM :=
  { num_total_sv := 2, num_attributes := 1
    rho := Triangular.with_dimension 2 0
    probabilities := none
    kernel := .linear
    classes :=
      [ { label := 7, num_sv := 1
          support_vectors := ⟨1, 1, 1, [1]⟩
          coefficients := ⟨1, 1, 1, [1]⟩ },
        { label := 3, num_sv := 1
          support_vectors := ⟨1, 1, 1, [0]⟩
          coefficients := ⟨1, 1, 1, [-1]⟩ } ] }

/-- Witness problem with a non-trivial pairwise matrix and dirty scratch. -/
def problemW : Problem :=
  { features := [1]
    kernel_values := ⟨2, 1, 1, [1, 0]⟩
    vote := [0, 0]
    decision_values := Triangular.with_dimension 2 0
    pairwise := ⟨2, 2, 2, [0, 1/2, 1/3, 0]⟩
    probabilities := [7, 8]
    label := 0 }

/-- Witness problem with an all-zero pairwise matrix. -/
def problemW0 : Problem :=
  { features := [1]
    kernel_values := ⟨2, 1, 1, [1, 0]⟩
    vote := [0, 0]
    decision_values := Triangular.with_dimension 2 0
    pairwise := SimdOptimized.with_dimension 2 2 0
    probabilities := [0, 0]
    label := 0 }

/-- C5: for every model with at least two classes and every problem sized for it,
the coupling setup builds Q with `Q[t,t] = Σ_{j≠t} r[(j,t)]²` and
`Q[i,j] = −r[(j,i)]·r[(i,j)]` for `i ≠ j`, and initialises every probabilities
entry to `1/n` before the iteration starts. -/
theorem c5_coupling_setup (svm : CSVM) (problem : Problem)
    (hn : 2 ≤ svm.classes.length)
    (hp : problem.probabilities.length = svm.classes.length) :
    (∀ t, t < svm.classes.length →
      couplingQ svm problem t t
        = (((List.range svm.classes.length).filter (fun j => j ≠ t)).map
            (fun j => problem.pairwise.getAt j t * problem.pairwise.getAt j t)).sum) ∧
    (∀ i j, i < svm.classes.length → j < svm.classes.length → i ≠ j →
      couplingQ svm problem i j
        = -(problem.pairwise.getAt j i) * problem.pairwise.getAt i j) ∧
    (∀ t, t < svm.classes.length →
      (couplingP0 svm problem).getD t 0 = 1 / (svm.classes.length : ℚ)) := by
  obtain ⟨hq, hpv, _⟩ := buildQP_spec svm.classes.length
    (fun a b => problem.pairwise.getAt a b) problem.probabilities hp
  refine ⟨?_, ?_, ?_⟩
  · intro t ht
    have h := hq t t ht ht
    unfold couplingQ
    rw [h]
    unfold qSpec
    rw [if_pos rfl]
  · intro i j hi hj hij
    have h := hq i j hi hj
    unfold couplingQ
    rw [h]
    unfold qSpec
    rw [if_neg hij]
  · intro t ht
    unfold couplingP0
    exact hpv t ht

/-- Witness for C5: concrete Q entries and uniform initial probabilities. -/
theorem c5_coupling_setup_witness :
    couplingQ svmW problemW 0 0 = 1 / 9 ∧
    couplingQ svmW problemW 0 1 = -(1 / 6) ∧
    (couplingP0 svmW problemW).getD 0 0 = 1 / 2 := by
  have h := c5_coupling_setup svmW problemW (by decide) (by decide)
  refine ⟨?_, ?_, ?_⟩
  · rw [h.1 0 (by decide)]
    norm_num [List.range_succ, SimdOptimized.getAt, SimdOptimized.offset, problemW, svmW,
      List.getD_cons_succ, List.getD_cons_zero]
  · rw [h.2.1 0 1 (by decide) (by decide) (by decide)]
    norm_num [SimdOptimized.getAt, SimdOptimized.offset, problemW,
      List.getD_cons_succ, List.getD_cons_zero]
  · rw [h.2.2 0 (by decide)]
    norm_num [svmW]

theorem probLoop_error_iff (n : ℕ) (q : ℕ → ℕ → ℚ) :
    ∀ (fuel : ℕ) (p : List ℚ),
      (probLoop n q fuel p = .error .iterationsExceeded ↔
        ∀ i, i ≤ fuel → convTest n q ((probStep n q)^[i] p) = false) := by
  intro fuel
  induction fuel with
  | zero =>
    intro p
    constructor
    · intro h i hi
      have hi0 : i = 0 := by omega
      subst hi0
      rw [Function.iterate_zero_apply]
      by_contra hc
      have ht : convTest n q p = true := by simpa using hc
      simp only [probLoop, if_pos ht] at h
      exact Except.noConfusion h
    · intro hall
      have h0 := hall 0 (le_refl 0)
      rw [Function.iterate_zero_apply] at h0
      simp only [probLoop, h0]
      rfl
  | succ fuel ih =>
    intro p
    by_cases hc : convTest n q p = true
    · constructor
      · intro h
        simp only [probLoop, if_pos hc] at h
        exact Except.noConfusion h
      · intro hall
        exfalso
        have h0 := hall 0 (by omega)
        rw [Function.iterate_zero_apply] at h0
        rw [hc] at h0
        cases h0
    · have hcf : convTest n q p = false := by simpa using hc
      have hstep : probLoop n q (fuel + 1) p = probLoop n q fuel (probStep n q p) := by
        simp only [probLoop, hcf]
        rfl
      rw [hstep]
      constructor
      · intro h i hi
        rcases i with _ | k
        · rw [Function.iterate_zero_apply]
          exact hcf
        · rw [Function.iterate_succ_apply]
          exact (ih (probStep n q p)).mp h k (by omega)
      · intro hall
        apply (ih (probStep n q p)).mpr
        intro k hk
        have := hall (k + 1) (by omega)
        rw [Function.iterate_succ_apply] at this
        exact this

theorem probLoop_ok_first (n : ℕ) (q : ℕ → ℕ → ℚ) :
    ∀ (fuel : ℕ) (p : List ℚ) (i : ℕ), i ≤ fuel →
      convTest n q ((probStep n q)^[i] p) = true →
      (∀ j, j < i → convTest n q ((probStep n q)^[j] p) = false) →
      probLoop n q fuel p = .ok ((probStep n q)^[i] p) := by
  intro fuel
  induction fuel with
  | zero =>
    intro p i hi hconv _
    have hi0 : i = 0 := by omega
    subst hi0
    rw [Function.iterate_zero_apply] at hconv ⊢
    simp only [probLoop, if_pos hconv]
  | succ fuel ih =>
    intro p i hi hconv hprev
    by_cases hc : convTest n q p = true
    · have hi0 : i = 0 := by
        by_contra h0
        have := hprev 0 (by omega)
        rw [Function.iterate_zero_apply] at this
        rw [hc] at this
        cases this
      subst hi0
      rw [Function.iterate_zero_apply]
      simp only [probLoop, if_pos hc]
    · have hcf : convTest n q p = false := by simpa using hc
      have hi0 : i ≠ 0 := by
        intro h
        subst h
        rw [Function.iterate_zero_apply] at hconv
        rw [hconv] at hcf
        cases hcf
      obtain ⟨k, rfl⟩ : ∃ k, i = k + 1 := ⟨i - 1, by omega⟩
      have hrec := ih (probStep n q p) k (by omega)
        (by rw [← Function.iterate_succ_apply]; exact hconv)
        (fun j hj => by
          rw [← Function.iterate_succ_apply]
          exact hprev (j + 1) (by omega))
      have hstep : probLoop n q (fuel + 1) p = probLoop n q fuel (probStep n q p) := by
        simp only [probLoop, hcf]
        rfl
      rw [hstep, hrec, Function.iterate_succ_apply]

theorem except_map_error_iff {α β : Type} (x : Except SVMError α) (f : α → β)
    (e : SVMError) : x.map f = .error e ↔ x = .error e := by
  cases x <;> simp [Except.map]

/-- C3: `compute_multiclass_probabilities` returns `IterationsExceeded` if and
only if the convergence test `max_t |Qp[t] − pQp| < 0.005/n` fails at every one
of the iterations `i = 0 … max_iter` with `max_iter = max(100, n)`; and when the
test first passes at iteration `i ≤ max_iter` the call returns `Ok` with exactly
`i` update passes performed. -/
theorem c3_iterations_exceeded (svm : CSVM) (problem : Problem)
    (hn : 1 ≤ svm.classes.length) :
    (compute_multiclass_probabilities svm problem = .error .iterationsExceeded ↔
      ∀ i, i ≤ max 100 svm.classes.length →
        convTest svm.classes.length (couplingQ svm problem)
          ((probStep svm.classes.length (couplingQ svm problem))^[i]
            (couplingP0 svm problem)) = false) ∧
    (∀ i, i ≤ max 100 svm.classes.length →
      convTest svm.classes.length (couplingQ svm problem)
        ((probStep svm.classes.length (couplingQ svm problem))^[i]
          (couplingP0 svm problem)) = true →
      (∀ j, j < i →
        convTest svm.classes.length (couplingQ svm problem)
          ((probStep svm.classes.length (couplingQ svm problem))^[j]
            (couplingP0 svm problem)) = false) →
      compute_multiclass_probabilities svm problem =
        .ok { problem with probabilities :=
          ((probStep svm.classes.length (couplingQ svm problem))^[i]
            (couplingP0 svm problem)) }) := by
  constructor
  · unfold compute_multiclass_probabilities
    rw [except_map_error_iff]
    exact probLoop_error_iff svm.classes.length (couplingQ svm problem)
      (max 100 svm.classes.length) (couplingP0 svm problem)
  · intro i hi hconv hprev
    unfold compute_multiclass_probabilities
    rw [probLoop_ok_first svm.classes.length (couplingQ svm problem)
      (max 100 svm.classes.length) (couplingP0 svm problem) i hi hconv hprev]
    rfl

/-- Witness for C3: with an all-zero pairwise matrix the convergence test passes
immediately, so the call returns `Ok` after zero update passes. -/
theorem c3_iterations_exceeded_witness :
    compute_multiclass_probabilities svmW problemW0 =
      .ok { problemW0 with probabilities := couplingP0 svmW problemW0 } := by
  have hconv : convTest svmW.classes.length (couplingQ svmW problemW0)
      ((probStep svmW.classes.length (couplingQ svmW problemW0))^[0]
        (couplingP0 svmW problemW0)) = true := by
    rw [Function.iterate_zero_apply]
    norm_num [convTest, couplingQ, couplingP0, buildQP, buildStep, innerLow, innerHigh,
      forRange_succ, forRange_zero, upd, qpVec, pqpVal, maxError, svmW, problemW0,
      SimdOptimized.getAt, SimdOptimized.offset, SimdOptimized.with_dimension,
      List.range_succ, List.getD_cons_succ, List.getD_cons_zero]
  have h := (c3_iterations_exceeded svmW problemW0 (by decide)).2 0 (by omega) hconv
    (fun j hj => absurd hj (Nat.not_lt_zero j))
  rw [Function.iterate_zero_apply] at h
  exact h

/-! ## Label/index translation (`CSVM::class_index_for_label` /
`CSVM::class_label_for_index`, csvm.rs lines 215–245) -/

/-- The enumerate-and-return-first-match loop of `class_index_for_label`. -/
def findLabelIndex : List Class → ℕ → Option ℕ
  | [], _ => none
  | c :: rest, l => if c.label = l then some 0 else (findLabelIndex rest l).map (· + 1)

/-- `CSVM::class_index_for_label`: the first internal index holding the label. -/
def CSVM.class_index_for_label (svm : CSVM) (label : ℕ) : Option ℕ :=
  findLabelIndex svm.classes label

/-- `CSVM::class_label_for_index`: `None` when the index is out of range,
otherwise the label at that position. -/
def CSVM.class_label_for_index (svm : CSVM) (index : ℕ) : Option ℕ :=
  if svm.classes.length ≤ index then none
  else some ((svm.classes.getD index default).label)

/-- A model whose two classes carry the same label: `CSVM::try_from` never
checks label uniqueness, so such models are constructible. -/
def svmDup : CSVM :=
  { num_total_sv := 2, num_attributes := 1
    rho := Triangular.with_dimension 2 0
    probabilities := none
    kernel := .linear
    classes := [Class.with_parameters 2 1 1 5, Class.with_parameters 2 1 1 5] }

/-- Counterexample for C8: with duplicate labels, `class_index_for_label`
returns the first matching index, so the index→label→index round trip fails at
index 1. -/
theorem c8_roundtrip_counterexample :
    ¬ (∀ (svm : CSVM) (i : ℕ), i < svm.classes.length →
        (svm.class_label_for_index i).bind
          (fun l => svm.class_index_for_label l) = some i) := by
  intro h
  have h1 := h svmDup 1 (by decide)
  have h2 : (svmDup.class_label_for_index 1).bind
      (fun l => svmDup.class_index_for_label l) = some 0 := by decide
  rw [h1] at h2
  exact absurd h2 (by decide)

theorem findLabelIndex_getD (cs : List Class) :
    ∀ (i : ℕ), i < cs.length →
      cs.Pairwise (fun c d => c.label ≠ d.label) →
      findLabelIndex cs ((cs.getD i default).label) = some i := by
  induction cs with
  | nil => intro i hi _; exact absurd hi (by simp)
  | cons c rest ih =>
    intro i hi hp
    cases i with
    | zero => simp [findLabelIndex, List.getD_cons_zero]
    | succ k =>
      have hk : k < rest.length := by simpa using hi
      have hmem : rest.getD k default ∈ rest := by
        rw [List.getD_eq_getElem rest default hk]
        exact List.getElem_mem hk
      have hne : c.label ≠ (rest.getD k default).label :=
        (List.pairwise_cons.mp hp).1 _ hmem
      rw [List.getD_cons_succ]
      simp only [findLabelIndex, if_neg hne]
      rw [ih k hk (List.pairwise_cons.mp hp).2]
      rfl

theorem findLabelIndex_finds (cs : List Class) :
    ∀ (l : ℕ), (∃ c ∈ cs, c.label = l) →
      ∃ i, findLabelIndex cs l = some i ∧ i < cs.length ∧
        (cs.getD i default).label = l := by
  induction cs with
  | nil => intro l hex; simp at hex
  | cons c rest ih =>
    intro l hex
    by_cases hc : c.label = l
    · exact ⟨0, by simp [findLabelIndex, hc], by simp, by simpa using hc⟩
    · obtain ⟨d, hd, hdl⟩ := hex
      rcases List.mem_cons.mp hd with rfl | hdr
      · exact absurd hdl hc
      · obtain ⟨i, hfind, hlen, hlbl⟩ := ih l ⟨d, hdr, hdl⟩
        refine ⟨i + 1, ?_, by simpa using hlen, by simpa using hlbl⟩
        simp only [findLabelIndex, if_neg hc, hfind]
        rfl

/-- C8 (amended): when the class labels are pairwise distinct, the
index→label→index round trip is the identity on valid indices; and for every
model — distinct labels or not — and every declared label, the
label→index→label round trip returns the label. -/
theorem c8_roundtrip (svm : CSVM) :
    (svm.classes.Pairwise (fun c d => c.label ≠ d.label) →
      ∀ i, i < svm.classes.length →
        (svm.class_label_for_index i).bind
          (fun l => svm.class_index_for_label l) = some i) ∧
    (∀ l, (∃ c ∈ svm.classes, c.label = l) →
      (svm.class_index_for_label l).bind
        (fun i => svm.class_label_for_index i) = some l) := by
  constructor
  · intro hdist i hi
    unfold CSVM.class_label_for_index
    rw [if_neg (by omega)]
    show svm.class_index_for_label ((svm.classes.getD i default).label) = some i
    exact findLabelIndex_getD svm.classes i hi hdist
  · intro l hex
    obtain ⟨i, hfind, hlen, hlbl⟩ := findLabelIndex_finds svm.classes l hex
    unfold CSVM.class_index_for_label
    rw [hfind]
    show svm.class_label_for_index i = some l
    unfold CSVM.class_label_for_index
    rw [if_neg (by omega), hlbl]

/-- Witness for C8: the distinct-label direction at the two-class model with
labels 7 and 3, and the unconditional direction at the duplicate-label
model. -/
theorem c8_roundtrip_witness :
    (svmW.class_label_for_index 0).bind
      (fun l => svmW.class_index_for_label l) = some 0 ∧
    (svmDup.class_index_for_label 5).bind
      (fun i => svmDup.class_label_for_index i) = some 5 :=
  ⟨(c8_roundtrip svmW).1 (by decide) 0 (by decide),
   (c8_roundtrip svmDup).2 5 (by decide)⟩

/-! ## Model construction (`CSVM::try_from`, csvm.rs lines 281–379) -/

/-- Modelled from the spec (§6.1): one `(attribute_index, attribute_value)`
pair of a support vector as exposed by the parser collaborator. -/
structure Attribute where
  index : ℕ
  value : ℚ
deriving DecidableEq

instance : Inhabited Attribute := ⟨⟨0, 0⟩⟩

/-- Modelled from the spec (§6.1): one support-vector entry — `num_classes − 1`
coefficients and the attribute stream. -/
structure SupportVector where
  coefs : List ℚ
  features : List Attribute
deriving DecidableEq

instance : Inhabited SupportVector := ⟨⟨[], []⟩⟩

/-- Modelled from the spec (§6.1): the parsed model-file header. -/
structure Header where
  svm_type : String
  kernel_type : String
  gamma : Option ℚ
  coef0 : Option ℚ
  degree : Option ℕ
  nr_class : ℕ
  total_sv : ℕ
  label : List ℕ
  nr_sv : List ℕ
  rho : List ℚ
  prob_a : Option (List ℚ)
  prob_b : Option (List ℚ)

/-- Modelled from the spec (§6.1): the parser's output consumed by
`CSVM::try_from`. -/
structure ModelFile where
  header : Header
  vectors : List SupportVector

/-- Outcomes of `try_from`: a returned error, or a Rust panic (out-of-bounds
`Vec` indexing / slicing, or the `unimplemented!()` arm). -/
inductive TFErr where
  | svm (e : SVMError)
  | panicked
deriving DecidableEq

def tfIsOk : Except TFErr CSVM → Bool
  | .ok _ => true
  | .error _ => false

instance : Inhabited CSVM :=
  ⟨{ num_total_sv := 0, num_attributes := 0, rho := default,
     probabilities := none, kernel := .linear, classes := [] }⟩

/-- Flat-buffer write `m.data[off] = v`; Rust panics when `off` is out of
bounds. -/
def SimdOptimized.setFlat (m : SimdOptimized) (off : ℕ) (v : ℚ) :
    Except TFErr SimdOptimized :=
  if off < m.data.length then .ok { m with data := m.data.set off v }
  else .error .panicked

/-- Modelled from the spec: `Rbf::try_from` (rbf.rs is not vendored) builds the
RBF kernel from the header's γ, failing when it is absent. -/
def rbfTryFrom (m : ModelFile) : Except TFErr Kernel :=
  match m.header.gamma with
  | some g => .ok (.rbf g)
  | none => .error (.svm .modelInconsistent)

/-- The kernel match of `try_from` (csvm.rs lines 315–319): `"rbf"` and
`"linear"` are handled; everything else hits `unimplemented!()`, a panic. -/
def kernelFromHeader (m : ModelFile) : Except TFErr Kernel :=
  if m.header.kernel_type = "rbf" then rbfTryFrom m
  else if m.header.kernel_type = "linear" then .ok .linear
  else .error .panicked

/-- The `(0..num_classes).map(...)` collection building the class records, as a
left-to-right recursion over the index list. -/
def buildClassesAux (num_classes num_attributes : ℕ) (labels nr_sv : List ℕ) :
    List ℕ → Except TFErr (List Class)
  | [] => .ok []
  | i :: rest =>
    match labels[i]?, nr_sv[i]? with
    | some l, some s =>
      match buildClassesAux num_classes num_attributes labels nr_sv rest with
      | .error e => .error e
      | .ok cs => .ok (Class.with_parameters num_classes s num_attributes l :: cs)
    | _, _ => .error .panicked

/-- Class-record construction (csvm.rs lines 299–304); `header.label[class]`
and `header.nr_sv[class]` panic when out of bounds. -/
def buildClasses (num_classes num_attributes : ℕ) (labels nr_sv : List ℕ) :
    Except TFErr (List Class) :=
  buildClassesAux num_classes num_attributes labels nr_sv (List.range num_classes)

/-- Probability-parameter materialisation (csvm.rs lines 306–313). -/
def probFromHeader (h : Header) : Option Probabilities :=
  match h.prob_a, h.prob_b with
  | some a, some b => some ⟨Triangular.ofList h.nr_class a, Triangular.ofList h.nr_class b⟩
  | _, _ => none

/-- The attribute walk of one support vector (csvm.rs lines 343–363): after the
first attribute, each index must be the successor of the previous one, else
`AttributesUnordered{index, value, last_index}`; accepted values are written at
`(i_vector, i_attribute)` of the class's support-vector matrix. -/
def walkAttributes (i_vector : ℕ) :
    SimdOptimized → Option ℕ → ℕ → List Attribute → Except TFErr SimdOptimized
  | sv, _, _, [] => .ok sv
  | sv, last, i_attribute, attr :: rest =>
    match last with
    | some l =>
      if attr.index ≠ l + 1 then
        .error (.svm (.attributesUnordered attr.index l attr.value))
      else
        match sv.setFlat (sv.offset i_vector i_attribute) attr.value with
        | .error e => .error e
        | .ok sv' => walkAttributes i_vector sv' (some attr.index) (i_attribute + 1) rest
    | none =>
      match sv.setFlat (sv.offset i_vector i_attribute) attr.value with
      | .error e => .error e
      | .ok sv' => walkAttributes i_vector sv' (some attr.index) (i_attribute + 1) rest

/-- The coefficient writes of one support vector (csvm.rs lines 366–369):
`coefficients[(i_coefficient, i_vector)] = c`. -/
def writeCoefficients (i_vector : ℕ) :
    SimdOptimized → ℕ → List ℚ → Except TFErr SimdOptimized
  | co, _, [] => .ok co
  | co, i_coefficient, c :: rest =>
    match co.setFlat (co.offset i_coefficient i_vector) c with
    | .error e => .error e
    | .ok co' => writeCoefficients i_vector co' (i_coefficient + 1) rest

/-- Processing of one support vector: attribute walk, then coefficients. -/
def processVector (cls : Class) (i_vector : ℕ) (v : SupportVector) :
    Except TFErr Class :=
  match walkAttributes i_vector cls.support_vectors none 0 v.features with
  | .error e => .error e
  | .ok sv' =>
    match writeCoefficients i_vector cls.coefficients 0 v.coefs with
    | .error e => .error e
    | .ok co' => .ok { cls with support_vectors := sv', coefficients := co' }

/-- The per-class vector loop (`for (i_vector, vector) in …enumerate()`). -/
def processVectors (cls : Class) : ℕ → List SupportVector → Except TFErr Class
  | _, [] => .ok cls
  | i_vector, v :: rest =>
    match processVector cls i_vector v with
    | .error e => .error e
    | .ok cls' => processVectors cls' (i_vector + 1) rest

/-- The class loop (csvm.rs lines 337–374): walk the support vectors grouped by
class via `start_offset`/`stop_offset` slices; slicing past the end of
`vectors` panics. -/
def processClasses (vectors : List SupportVector) :
    ℕ → List Class → List ℕ → Except TFErr (List Class)
  | _, [], _ => .ok []
  | start_offset, cls :: restCls, nr_sv =>
    match nr_sv with
    | [] => .error .panicked
    | s :: restSv =>
      if vectors.length < start_offset + s then .error .panicked
      else
        match processVectors cls 0 ((vectors.drop start_offset).take s) with
        | .error e => .error e
        | .ok cls' =>
          match processClasses vectors (start_offset + s) restCls restSv with
          | .error e => .error e
          | .ok rest' => .ok (cls' :: rest')

/-- `CSVM::try_from` (csvm.rs lines 281–379), for an already-parsed model:
`num_attributes` from the first support vector (panic when there is none),
class records, optional probabilities, the kernel match, then the grouped
support-vector/coefficient decoding. -/
def tryFrom (raw : ModelFile) : Except TFErr CSVM :=
  match raw.vectors with
  | [] => .error .panicked
  | v0 :: _ =>
    match buildClasses raw.header.nr_class v0.features.length
        raw.header.label raw.header.nr_sv with
    | .error e => .error e
    | .ok classes =>
      match kernelFromHeader raw with
      | .error e => .error e
      | .ok kernel =>
        match processClasses raw.vectors 0 classes raw.header.nr_sv with
        | .error e => .error e
        | .ok classes' =>
          .ok { num_total_sv := raw.header.total_sv
                num_attributes := v0.features.length
                probabilities := probFromHeader raw.header
                kernel := kernel
                rho := Triangular.ofList raw.header.nr_class raw.header.rho
                classes := classes' }

/-- A model file whose single support vector has consecutive attribute indices
starting at 2 (not 1). -/
def ce2Input : ModelFile :=
  { header := { svm_type := "c_svc", kernel_type := "linear", gamma := none
                coef0 := none, degree := none, nr_class := 1, total_sv := 1
                label := [1], nr_sv := [1], rho := [], prob_a := none, prob_b := none }
    vectors := [{ coefs := [], features := [⟨2, 1⟩, ⟨3, 5⟩] }] }

/-- Counterexample for C2: this input's attribute indices start at 2, so its
index sequence is not a dense strictly-increasing sequence starting at 1, yet
`try_from` accepts it — the first attribute's index is never checked. -/
theorem c2_unchecked_start_counterexample :
    ((ce2Input.vectors.headD ⟨[], []⟩).features.headD ⟨0, 0⟩).index = 2 ∧
    tfIsOk (tryFrom ce2Input) = true := by
  constructor
  · rfl
  · rfl

/-- A model file declaring kernel type `sigmoid` (well-formed otherwise). -/
def ce4Input : ModelFile :=
  { header := { svm_type := "c_svc", kernel_type := "sigmoid", gamma := some 1
                coef0 := some 0, degree := none, nr_class := 1, total_sv := 1
                label := [1], nr_sv := [1], rho := [], prob_a := none, prob_b := none }
    vectors := [{ coefs := [], features := [⟨1, 1⟩] }] }

/-- Counterexample for C4: a parsed model with kernel type `sigmoid` makes
`try_from` hit `unimplemented!()` — a panic, not a returned `UnsupportedKernel`
error. -/
theorem c4_unimplemented_counterexample :
    ce4Input.header.kernel_type = "sigmoid" ∧
    tryFrom ce4Input = .error .panicked := by
  constructor
  · rfl
  · rfl

/-- A model file whose second support vector has fewer attributes than the
first. -/
def ce9Input : ModelFile :=
  { header := { svm_type := "c_svc", kernel_type := "linear", gamma := none
                coef0 := none, degree := none, nr_class := 2, total_sv := 2
                label := [10, 20], nr_sv := [1, 1], rho := [0], prob_a := none
                prob_b := none }
    vectors := [{ coefs := [1], features := [⟨1, 2⟩, ⟨2, 3⟩] },
                { coefs := [-1], features := [⟨1, 4⟩] }] }

/-- Counterexample for C9: the second support vector has 1 attribute while the
first has 2, yet `try_from` succeeds — no attribute-count consistency check
exists. -/
theorem c9_no_length_check_counterexample :
    (ce9Input.vectors.getD 1 ⟨[], []⟩).features.length ≠
      (ce9Input.vectors.getD 0 ⟨[], []⟩).features.length ∧
    tfIsOk (tryFrom ce9Input) = true := by
  constructor
  · decide
  · rfl

theorem buildClassesAux_ok (n na : ℕ) (labels nrsv : List ℕ) :
    ∀ (l : List ℕ), (∀ i ∈ l, i < labels.length ∧ i < nrsv.length) →
      buildClassesAux n na labels nrsv l =
        .ok (l.map (fun i =>
          Class.with_parameters n (nrsv.getD i 0) na (labels.getD i 0))) := by
  intro l
  induction l with
  | nil => intro _; rfl
  | cons i rest ih =>
    intro h
    obtain ⟨hi1, hi2⟩ := h i (List.mem_cons_self ..)
    have e1 : labels[i]? = some (labels.getD i 0) := by
      rw [List.getElem?_eq_getElem hi1, List.getD_eq_getElem _ _ hi1]
    have e2 : nrsv[i]? = some (nrsv.getD i 0) := by
      rw [List.getElem?_eq_getElem hi2, List.getD_eq_getElem _ _ hi2]
    simp only [buildClassesAux, e1, e2, ih (fun a ha => h a (List.mem_cons_of_mem _ ha))]
    rw [List.map_cons]

theorem buildClasses_ok (n na : ℕ) (labels nrsv : List ℕ)
    (h1 : n ≤ labels.length) (h2 : n ≤ nrsv.length) :
    buildClasses n na labels nrsv =
      .ok ((List.range n).map (fun i =>
        Class.with_parameters n (nrsv.getD i 0) na (labels.getD i 0))) :=
  buildClassesAux_ok n na labels nrsv (List.range n)
    (fun i hi => ⟨by have := List.mem_range.mp hi; omega,
                  by have := List.mem_range.mp hi; omega⟩)

theorem setFlat_ok (m : SimdOptimized) (off : ℕ) (v : ℚ) (h : off < m.data.length) :
    m.setFlat off v = .ok { m with data := m.data.set off v } := by
  unfold SimdOptimized.setFlat
  rw [if_pos h]

/-- A non-successor attribute with a previous attribute seen fails the walk
immediately. -/
theorem walkAttributes_cons_bad (iV : ℕ) (sv : SimdOptimized) (lv iA : ℕ) (attr : Attribute)
    (rest : List Attribute) (h : attr.index ≠ lv + 1) :
    walkAttributes iV sv (some lv) iA (attr :: rest) =
      .error (.svm (.attributesUnordered attr.index lv attr.value)) := by
  simp only [walkAttributes]
  rw [if_pos h]

/-- An accepted attribute is written and the walk continues with the index
remembered. -/
theorem walkAttributes_cons_step (iV : ℕ) (sv : SimdOptimized) (iA : ℕ) (attr : Attribute)
    (rest : List Attribute) (last : Option ℕ)
    (hok : ∀ lv, last = some lv → attr.index = lv + 1)
    (hw : sv.offset iV iA < sv.data.length) :
    walkAttributes iV sv last iA (attr :: rest) =
      walkAttributes iV { sv with data := sv.data.set (sv.offset iV iA) attr.value }
        (some attr.index) (iA + 1) rest := by
  cases last with
  | none => simp only [walkAttributes, setFlat_ok sv _ _ hw]
  | some lv =>
    have h : ¬ attr.index ≠ lv + 1 := by
      have := hok lv rfl
      omega
    simp only [walkAttributes, setFlat_ok sv _ _ hw]
    rw [if_neg h]

/-- If the attribute stream has successor steps up to position `k` and breaks at
position `k+1`, and the writes up to `k` stay in bounds, the walk fails with
`AttributesUnordered` carrying the offending index, the last index, and the
offending value. -/
theorem walkAttributes_error (iV : ℕ) :
    ∀ (k : ℕ) (l : List Attribute) (sv : SimdOptimized) (iA : ℕ) (last : Option ℕ),
      k + 1 < l.length →
      (∀ lv, last = some lv → (l.getD 0 default).index = lv + 1) →
      (∀ j, j < k →
        (l.getD (j + 1) default).index = (l.getD j default).index + 1) →
      (l.getD (k + 1) default).index ≠ (l.getD k default).index + 1 →
      (∀ j, j ≤ k → sv.offset iV (iA + j) < sv.data.length) →
      walkAttributes iV sv last iA l =
        .error (.svm (.attributesUnordered (l.getD (k + 1) default).index
          (l.getD k default).index (l.getD (k + 1) default).value)) := by
  intro k
  induction k with
  | zero =>
    intro l sv iA last hlen hcompat _ hbad hwb
    match l, hlen with
    | a :: b :: rest, _ =>
      have hw0 : sv.offset iV (iA + 0) < sv.data.length := hwb 0 (by omega)
      rw [show iA + 0 = iA by omega] at hw0
      have hbad' : b.index ≠ a.index + 1 := by
        simpa [List.getD_cons_succ, List.getD_cons_zero] using hbad
      have hok : ∀ lv, last = some lv → a.index = lv + 1 := by
        intro lv hl
        have := hcompat lv hl
        simpa [List.getD_cons_zero] using this
      rw [walkAttributes_cons_step iV sv iA a (b :: rest) last hok hw0,
        walkAttributes_cons_bad iV _ a.index (iA + 1) b rest hbad']
      simp [List.getD_cons_succ, List.getD_cons_zero]
  | succ k ih =>
    intro l sv iA last hlen hcompat hgood hbad hwb
    match l, hlen with
    | a :: rest, hlen' =>
      have hrlen : k + 1 < rest.length := by simpa using hlen'
      have hw0 : sv.offset iV (iA + 0) < sv.data.length := hwb 0 (by omega)
      rw [show iA + 0 = iA by omega] at hw0
      have hok : ∀ lv, last = some lv → a.index = lv + 1 := by
        intro lv hl
        have := hcompat lv hl
        simpa [List.getD_cons_zero] using this
      have hcompat' : ∀ lv, (some a.index : Option ℕ) = some lv →
          (rest.getD 0 default).index = lv + 1 := by
        intro lv hl
        have h0 := hgood 0 (by omega)
        simp only [List.getD_cons_succ, List.getD_cons_zero] at h0
        have : lv = a.index := by
          injection hl with h
          omega
        rw [this]
        exact h0
      have hgood' : ∀ j, j < k →
          (rest.getD (j + 1) default).index = (rest.getD j default).index + 1 := by
        intro j hj
        have := hgood (j + 1) (by omega)
        simpa [List.getD_cons_succ] using this
      have hbad' : (rest.getD (k + 1) default).index ≠ (rest.getD k default).index + 1 := by
        simpa [List.getD_cons_succ] using hbad
      have hwb' : ∀ j, j ≤ k →
          ({ sv with data := sv.data.set (sv.offset iV iA) a.value } :
            SimdOptimized).offset iV (iA + 1 + j) <
          ({ sv with data := sv.data.set (sv.offset iV iA) a.value } :
            SimdOptimized).data.length := by
        intro j hj
        have := hwb (j + 1) (by omega)
        simp only [SimdOptimized.offset, List.length_set]
        simp only [SimdOptimized.offset] at this
        omega
      have hrec := ih rest
        { sv with data := sv.data.set (sv.offset iV iA) a.value }
        (iA + 1) (some a.index) hrlen hcompat' hgood' hbad' hwb'
      rw [walkAttributes_cons_step iV sv iA a rest last hok hw0]
      rw [hrec]
      simp [List.getD_cons_succ]
theorem tryFrom_reduce (hdr : Header) (v0 : SupportVector) (vrest : List SupportVector)
    (cs : List Class) (kk : Kernel)
    (hc : buildClasses hdr.nr_class v0.features.length hdr.label hdr.nr_sv = .ok cs)
    (hk : kernelFromHeader ⟨hdr, v0 :: vrest⟩ = .ok kk) :
    tryFrom ⟨hdr, v0 :: vrest⟩ =
      match processClasses (v0 :: vrest) 0 cs hdr.nr_sv with
      | .error e => .error e
      | .ok classes' =>
        .ok { num_total_sv := hdr.total_sv
              num_attributes := v0.features.length
              probabilities := probFromHeader hdr
              kernel := kk
              rho := Triangular.ofList hdr.nr_class hdr.rho
              classes := classes' } := by
  simp only [tryFrom, hc, hk]

theorem processClasses_first_error (vectors : List SupportVector) (c0 : Class)
    (restCls : List Class) (s0 : ℕ) (restSv : List ℕ) (e : TFErr)
    (hsl : s0 ≤ vectors.length)
    (hpv : processVectors c0 0 (vectors.take s0) = .error e) :
    processClasses vectors 0 (c0 :: restCls) (s0 :: restSv) = .error e := by
  simp only [processClasses]
  rw [if_neg (by omega)]
  simp only [List.drop_zero, hpv]

theorem processVectors_first_error (c0 : Class) (v0 : SupportVector)
    (rest : List SupportVector) (e : TFErr)
    (hpv : processVector c0 0 v0 = .error e) :
    processVectors c0 0 (v0 :: rest) = .error e := by
  simp only [processVectors, hpv]

theorem processVector_walk_error (c0 : Class) (v0 : SupportVector) (e : TFErr)
    (hw : walkAttributes 0 c0.support_vectors none 0 v0.features = .error e) :
    processVector c0 0 v0 = .error e := by
  simp only [processVector, hw]

/-- A contiguous attribute stream: each attribute's index is the successor of
the previous one (no constraint on the starting index). -/
def goodSteps (l : List Attribute) : Prop :=
  ∀ j, j + 1 < l.length →
    (l.getD (j + 1) default).index = (l.getD j default).index + 1

/-- The allocation invariant of one class record through the support-vector
pass: both matrices keep the shapes `Class::with_parameters` gave them. -/
def ClassShape (cls : Class) (ncls num_sv na : ℕ) : Prop :=
  cls.support_vectors.vector_length = na ∧
  cls.support_vectors.data.length = num_sv * na ∧
  cls.coefficients.vector_length = num_sv ∧
  cls.coefficients.data.length = (ncls - 1) * num_sv

/-- A contiguous attribute stream with in-bound writes walks to success, and
the walk preserves the buffer shape. -/
theorem walkAttributes_ok (iV : ℕ) :
    ∀ (l : List Attribute) (sv : SimdOptimized) (iA : ℕ) (last : Option ℕ),
      goodSteps l →
      (∀ lv, last = some lv → 0 < l.length → (l.getD 0 default).index = lv + 1) →
      (∀ j, j < l.length → sv.offset iV (iA + j) < sv.data.length) →
      ∃ sv', walkAttributes iV sv last iA l = .ok sv' ∧
        sv'.data.length = sv.data.length ∧
        sv'.vector_length = sv.vector_length := by
  intro l
  induction l with
  | nil => intro sv iA last _ _ _; exact ⟨sv, rfl, rfl, rfl⟩
  | cons a rest ih =>
    intro sv iA last hgood hcompat hwb
    have hw0 : sv.offset iV (iA + 0) < sv.data.length :=
      hwb 0 (by simp only [List.length_cons]; omega)
    rw [show iA + 0 = iA by omega] at hw0
    have hok : ∀ lv, last = some lv → a.index = lv + 1 := by
      intro lv hl
      have := hcompat lv hl (by simp only [List.length_cons]; omega)
      simpa [List.getD_cons_zero] using this
    rw [walkAttributes_cons_step iV sv iA a rest last hok hw0]
    have hgood' : goodSteps rest := by
      intro j hj
      have := hgood (j + 1) (by simp only [List.length_cons]; omega)
      simpa [List.getD_cons_succ] using this
    have hcompat' : ∀ lv, (some a.index : Option ℕ) = some lv → 0 < rest.length →
        (rest.getD 0 default).index = lv + 1 := by
      intro lv hl hr
      have h0 := hgood 0 (by simp only [List.length_cons]; omega)
      simp only [List.getD_cons_succ, List.getD_cons_zero] at h0
      have hlv : lv = a.index := by injection hl with h; omega
      rw [hlv]
      exact h0
    have hwb' : ∀ j, j < rest.length →
        ({ sv with data := sv.data.set (sv.offset iV iA) a.value } :
          SimdOptimized).offset iV (iA + 1 + j) <
        ({ sv with data := sv.data.set (sv.offset iV iA) a.value } :
          SimdOptimized).data.length := by
      intro j hj
      have := hwb (j + 1) (by simp only [List.length_cons]; omega)
      simp only [SimdOptimized.offset, List.length_set]
      simp only [SimdOptimized.offset] at this
      omega
    obtain ⟨sv', hw, hl, hvl⟩ :=
      ih { sv with data := sv.data.set (sv.offset iV iA) a.value }
        (iA + 1) (some a.index) hgood' hcompat' hwb'
    refine ⟨sv', hw, ?_, hvl⟩
    rw [hl]
    exact List.length_set sv.data _ _

/-- The coefficient writes succeed when every offset is in bounds, and they
preserve the buffer shape. -/
theorem writeCoefficients_ok (iV : ℕ) :
    ∀ (cs : List ℚ) (co : SimdOptimized) (iC : ℕ),
      (∀ j, j < cs.length → co.offset (iC + j) iV < co.data.length) →
      ∃ co', writeCoefficients iV co iC cs = .ok co' ∧
        co'.data.length = co.data.length ∧
        co'.vector_length = co.vector_length := by
  intro cs
  induction cs with
  | nil => intro co iC _; exact ⟨co, rfl, rfl, rfl⟩
  | cons c rest ih =>
    intro co iC hwb
    have hw0 : co.offset (iC + 0) iV < co.data.length :=
      hwb 0 (by simp only [List.length_cons]; omega)
    rw [show iC + 0 = iC by omega] at hw0
    have hstep : writeCoefficients iV co iC (c :: rest) =
        writeCoefficients iV { co with data := co.data.set (co.offset iC iV) c }
          (iC + 1) rest := by
      simp only [writeCoefficients, setFlat_ok co _ _ hw0]
    rw [hstep]
    have hwb' : ∀ j, j < rest.length →
        ({ co with data := co.data.set (co.offset iC iV) c } :
          SimdOptimized).offset (iC + 1 + j) iV <
        ({ co with data := co.data.set (co.offset iC iV) c } :
          SimdOptimized).data.length := by
      intro j hj
      have := hwb (j + 1) (by simp only [List.length_cons]; omega)
      rw [show iC + 1 + j = iC + (j + 1) by omega]
      simp only [SimdOptimized.offset, List.length_set]
      simp only [SimdOptimized.offset] at this
      omega
    obtain ⟨co', hw, hl, hvl⟩ :=
      ih { co with data := co.data.set (co.offset iC iV) c } (iC + 1) hwb'
    refine ⟨co', hw, ?_, hvl⟩
    rw [hl]
    exact List.length_set co.data _ _

/-- Processing one support vector succeeds when its stream is contiguous and
its feature/coefficient counts fit the class matrices, preserving the class
shape. -/
theorem processVector_ok (ncls num_sv na : ℕ) (cls : Class) (iV : ℕ)
    (w : SupportVector)
    (hshape : ClassShape cls ncls num_sv na)
    (hiv : iV < num_sv)
    (hflen : w.features.length ≤ na)
    (hclen : w.coefs.length ≤ ncls - 1)
    (hgood : goodSteps w.features) :
    ∃ cls', processVector cls iV w = .ok cls' ∧ ClassShape cls' ncls num_sv na := by
  obtain ⟨hsv1, hsv2, hco1, hco2⟩ := hshape
  have hwbs : ∀ j, j < w.features.length →
      cls.support_vectors.offset iV (0 + j) < cls.support_vectors.data.length := by
    intro j hj
    simp only [SimdOptimized.offset, hsv1, hsv2]
    have h1 : (iV + 1) * na ≤ num_sv * na :=
      Nat.mul_le_mul (by omega) (le_refl na)
    have h2 : (iV + 1) * na = iV * na + na := by ring
    omega
  obtain ⟨sv', hwalk, hsvl, hsvvl⟩ := walkAttributes_ok iV w.features
    cls.support_vectors 0 none hgood (fun lv h => Option.noConfusion h) hwbs
  have hwbc : ∀ j, j < w.coefs.length →
      cls.coefficients.offset (0 + j) iV < cls.coefficients.data.length := by
    intro j hj
    simp only [SimdOptimized.offset, hco1, hco2, Nat.zero_add]
    have h1 : (j + 1) * num_sv ≤ (ncls - 1) * num_sv :=
      Nat.mul_le_mul (by omega) (le_refl num_sv)
    have h2 : (j + 1) * num_sv = j * num_sv + num_sv := by ring
    omega
  obtain ⟨co', hwrite, hcol, hcovl⟩ := writeCoefficients_ok iV w.coefs
    cls.coefficients 0 hwbc
  refine ⟨{ cls with support_vectors := sv', coefficients := co' }, ?_, ?_⟩
  · simp only [processVector, hwalk, hwrite]
  · exact ⟨hsvvl.trans hsv1, hsvl.trans hsv2, hcovl.trans hco1, hcol.trans hco2⟩

/-- Processing one support vector whose stream breaks at position `k+1` fails
with `AttributesUnordered`. -/
theorem processVector_bad (num_sv na : ℕ) (cls : Class) (iV : ℕ)
    (w : SupportVector) (k : ℕ)
    (hsv1 : cls.support_vectors.vector_length = na)
    (hsv2 : cls.support_vectors.data.length = num_sv * na)
    (hiv : iV < num_sv)
    (hflen : w.features.length ≤ na)
    (hk : k + 1 < w.features.length)
    (hgoodpre : ∀ j, j < k →
      (w.features.getD (j + 1) default).index = (w.features.getD j default).index + 1)
    (hbad : (w.features.getD (k + 1) default).index ≠
      (w.features.getD k default).index + 1) :
    processVector cls iV w = .error (.svm (.attributesUnordered
      (w.features.getD (k + 1) default).index
      (w.features.getD k default).index
      (w.features.getD (k + 1) default).value)) := by
  have hwbs : ∀ j, j ≤ k →
      cls.support_vectors.offset iV (0 + j) < cls.support_vectors.data.length := by
    intro j hj
    simp only [SimdOptimized.offset, hsv1, hsv2]
    have h1 : (iV + 1) * na ≤ num_sv * na :=
      Nat.mul_le_mul (by omega) (le_refl na)
    have h2 : (iV + 1) * na = iV * na + na := by ring
    omega
  have hwalk := walkAttributes_error iV k w.features cls.support_vectors 0 none hk
    (fun lv h => Option.noConfusion h) hgoodpre hbad hwbs
  simp only [processVector, hwalk]

/-- The per-class vector loop succeeds on contiguous fitting vectors,
preserving the class shape. -/
theorem processVectors_ok (ncls num_sv na : ℕ) :
    ∀ (ws : List SupportVector) (cls : Class) (iV : ℕ),
      ClassShape cls ncls num_sv na →
      iV + ws.length ≤ num_sv →
      (∀ w ∈ ws, goodSteps w.features ∧ w.features.length ≤ na ∧
        w.coefs.length ≤ ncls - 1) →
      ∃ cls', processVectors cls iV ws = .ok cls' ∧ ClassShape cls' ncls num_sv na := by
  intro ws
  induction ws with
  | nil => intro cls iV hshape _ _; exact ⟨cls, rfl, hshape⟩
  | cons w rest ih =>
    intro cls iV hshape hcnt hall
    obtain ⟨hg, hfl, hcl⟩ := hall w (List.mem_cons_self ..)
    obtain ⟨cls', hpv, hshape'⟩ := processVector_ok ncls num_sv na cls iV w hshape
      (by simp only [List.length_cons] at hcnt; omega) hfl hcl hg
    obtain ⟨cls'', hpvs, hshape''⟩ := ih cls' (iV + 1) hshape'
      (by simp only [List.length_cons] at hcnt; omega)
      (fun x hx => hall x (List.mem_cons_of_mem _ hx))
    refine ⟨cls'', ?_, hshape''⟩
    simp only [processVectors, hpv, hpvs]

/-- The per-class vector loop fails with `AttributesUnordered` at the first
support vector whose stream breaks, for any position `b` in the slice. -/
theorem processVectors_first_bad (ncls num_sv na : ℕ) :
    ∀ (ws : List SupportVector) (cls : Class) (iV b k : ℕ),
      ClassShape cls ncls num_sv na →
      iV + ws.length ≤ num_sv →
      (∀ w ∈ ws, w.features.length ≤ na ∧ w.coefs.length ≤ ncls - 1) →
      b < ws.length →
      (∀ p, p < b → goodSteps (ws.getD p default).features) →
      k + 1 < (ws.getD b default).features.length →
      (∀ j, j < k →
        ((ws.getD b default).features.getD (j + 1) default).index =
          ((ws.getD b default).features.getD j default).index + 1) →
      ((ws.getD b default).features.getD (k + 1) default).index ≠
        ((ws.getD b default).features.getD k default).index + 1 →
      processVectors cls iV ws = .error (.svm (.attributesUnordered
        ((ws.getD b default).features.getD (k + 1) default).index
        ((ws.getD b default).features.getD k default).index
        ((ws.getD b default).features.getD (k + 1) default).value)) := by
  intro ws
  induction ws with
  | nil => intro cls iV b k _ _ _ hb; exact absurd hb (by simp)
  | cons w rest ih =>
    intro cls iV b k hshape hcnt hall hb hprev hk hgood hbad
    obtain ⟨hsv1, hsv2, hco1, hco2⟩ := hshape
    cases b with
    | zero =>
      rw [List.getD_cons_zero] at hk hgood hbad ⊢
      have hpb := processVector_bad num_sv na cls iV w k hsv1 hsv2
        (by simp only [List.length_cons] at hcnt; omega)
        (hall w (List.mem_cons_self ..)).1 hk hgood hbad
      simp only [processVectors, hpb]
    | succ b' =>
      have hgw : goodSteps w.features := by
        have := hprev 0 (by omega)
        simpa [List.getD_cons_zero] using this
      obtain ⟨hfl, hcl⟩ := hall w (List.mem_cons_self ..)
      obtain ⟨cls', hpv, hshape'⟩ := processVector_ok ncls num_sv na cls iV w
        ⟨hsv1, hsv2, hco1, hco2⟩
        (by simp only [List.length_cons] at hcnt; omega) hfl hcl hgw
      have hrec := ih cls' (iV + 1) b' k hshape'
        (by simp only [List.length_cons] at hcnt; omega)
        (fun x hx => hall x (List.mem_cons_of_mem _ hx))
        (by simp only [List.length_cons] at hb; omega)
        (fun p hp => by
          have := hprev (p + 1) (by omega)
          simpa [List.getD_cons_succ] using this)
        (by simpa [List.getD_cons_succ] using hk)
        (fun j hj => by
          have := hgood j hj
          simpa [List.getD_cons_succ] using this)
        (by simpa [List.getD_cons_succ] using hbad)
      simp only [processVectors, hpv, List.getD_cons_succ]
      exact hrec

theorem getD_drop_take {α : Type} (l : List α) (s t p : ℕ) (d : α) (hp : p < t) :
    ((l.drop s).take t).getD p d = l.getD (s + p) d := by
  rw [List.getD_eq_getElem?_getD, List.getElem?_take_of_lt hp, List.getElem?_drop,
    ← List.getD_eq_getElem?_getD]

theorem getD_map_range {α : Type} (f : ℕ → α) (n p : ℕ) (d : α) (hp : p < n) :
    ((List.range n).map f).getD p d = f p := by
  rw [List.getD_eq_getElem?_getD, List.getElem?_map, List.getElem?_range hp]
  rfl

/-- The class loop fails with `AttributesUnordered` at the first support
vector (global position `v`, anywhere in the class blocks) whose attribute
stream breaks. -/
theorem processClasses_first_bad (ncls na : ℕ) (vectors : List SupportVector)
    (hall : ∀ w ∈ vectors, w.features.length ≤ na ∧ w.coefs.length ≤ ncls - 1) :
    ∀ (clsList : List Class) (nrsv : List ℕ) (startOff v k : ℕ),
      clsList.length ≤ nrsv.length →
      (∀ p, p < clsList.length →
        ClassShape (clsList.getD p default) ncls (nrsv.getD p 0) na) →
      startOff + (nrsv.take clsList.length).sum ≤ vectors.length →
      startOff ≤ v →
      v < startOff + (nrsv.take clsList.length).sum →
      (∀ p, startOff ≤ p → p < v → goodSteps (vectors.getD p default).features) →
      k + 1 < (vectors.getD v default).features.length →
      (∀ j, j < k →
        ((vectors.getD v default).features.getD (j + 1) default).index =
          ((vectors.getD v default).features.getD j default).index + 1) →
      ((vectors.getD v default).features.getD (k + 1) default).index ≠
        ((vectors.getD v default).features.getD k default).index + 1 →
      processClasses vectors startOff clsList nrsv = .error (.svm
        (.attributesUnordered
          ((vectors.getD v default).features.getD (k + 1) default).index
          ((vectors.getD v default).features.getD k default).index
          ((vectors.getD v default).features.getD (k + 1) default).value)) := by
  intro clsList
  induction clsList with
  | nil =>
    intro nrsv startOff v k _ _ _ hle hlt _ _ _ _
    simp only [List.length_nil, List.take_zero, List.sum_nil] at hlt
    omega
  | cons cls restCls ih =>
    intro nrsv startOff v k hlen hshapes hsum hle hlt hprev hk hgood hbad
    cases nrsv with
    | nil =>
      simp only [List.length_cons, List.length_nil] at hlen
      omega
    | cons s restSv =>
      have htake : ((s :: restSv).take (cls :: restCls).length).sum =
          s + (restSv.take restCls.length).sum := by
        simp only [List.length_cons, List.take_succ_cons, List.sum_cons]
      rw [htake] at hsum hlt
      have hshape0 : ClassShape cls ncls s na := by
        have := hshapes 0 (by simp)
        simpa [List.getD_cons_zero] using this
      have hguard : ¬ vectors.length < startOff + s := by omega
      have hws_len : ((vectors.drop startOff).take s).length = s := by
        simp only [List.length_take, List.length_drop]
        omega
      rcases Nat.lt_or_ge v (startOff + s) with hv1 | hv2
      · have hbs : v - startOff < s := by omega
        have hbws : ((vectors.drop startOff).take s).getD (v - startOff) default =
            vectors.getD v default := by
          rw [getD_drop_take vectors startOff s (v - startOff) default hbs]
          congr 1
          omega
        have hpvbad := processVectors_first_bad ncls s na
          ((vectors.drop startOff).take s) cls 0 (v - startOff) k hshape0
          (by rw [hws_len]; omega)
          (fun w hw => hall w (List.mem_of_mem_drop (List.mem_of_mem_take hw)))
          (by rw [hws_len]; exact hbs)
          (fun p hp => by
            rw [getD_drop_take vectors startOff s p default (by omega)]
            exact hprev (startOff + p) (by omega) (by omega))
          (by rw [hbws]; exact hk)
          (fun j hj => by rw [hbws]; exact hgood j hj)
          (by rw [hbws]; exact hbad)
        rw [hbws] at hpvbad
        simp only [processClasses, if_neg hguard, hpvbad]
      · have hpvok := processVectors_ok ncls s na ((vectors.drop startOff).take s)
          cls 0 hshape0 (by rw [hws_len]; omega)
          (fun w hw => by
            obtain ⟨p, hp, hpe⟩ := List.mem_iff_getElem.mp hw
            have hps : p < s := by rw [hws_len] at hp; exact hp
            have hwe : w = vectors.getD (startOff + p) default := by
              rw [← hpe, ← List.getD_eq_getElem _ default hp,
                getD_drop_take vectors startOff s p default hps]
            refine ⟨?_,
              (hall w (List.mem_of_mem_drop (List.mem_of_mem_take hw))).1,
              (hall w (List.mem_of_mem_drop (List.mem_of_mem_take hw))).2⟩
            rw [hwe]
            exact hprev (startOff + p) (by omega) (by omega))
        obtain ⟨cls', hpv, _⟩ := hpvok
        have hrec := ih restSv (startOff + s) v k
          (by simp only [List.length_cons] at hlen; omega)
          (fun p hp => by
            have := hshapes (p + 1) (by simp only [List.length_cons]; omega)
            simpa [List.getD_cons_succ] using this)
          (by omega)
          (by omega)
          (by omega)
          (fun p hp1 hp2 => hprev p (by omega) hp2)
          hk hgood hbad
        simp only [processClasses, if_neg hguard, hpv, hrec]

/-- C2 (amended): whenever construction reaches support vector `v` of the
grouped support-vector pass (first vector exists, header lists long enough,
supported kernel, earlier vectors contiguous with fitting feature and
coefficient counts, and `v` inside the class blocks) and that vector's
attribute stream has a non-successor step at position `k+1` after successor
steps up to `k`, `try_from` fails with `AttributesUnordered` carrying the
offending index, the previous index and the offending value — for any support
vector of any class, not only the first.  No vector's first attribute index is
ever compared against 1. -/
theorem c2_attributes_unordered (m : ModelFile) (v0 : SupportVector)
    (vrest : List SupportVector) (v k : ℕ)
    (hvec : m.vectors = v0 :: vrest)
    (hlab : m.header.nr_class ≤ m.header.label.length)
    (hnsv : m.header.nr_class ≤ m.header.nr_sv.length)
    (hker : m.header.kernel_type = "linear" ∨
            (m.header.kernel_type = "rbf" ∧ m.header.gamma.isSome = true))
    (hall : ∀ w ∈ m.vectors, w.features.length ≤ v0.features.length ∧
      w.coefs.length ≤ m.header.nr_class - 1)
    (hsum : (m.header.nr_sv.take m.header.nr_class).sum ≤ m.vectors.length)
    (hv : v < (m.header.nr_sv.take m.header.nr_class).sum)
    (hprev : ∀ p, p < v → goodSteps (m.vectors.getD p default).features)
    (hk : k + 1 < (m.vectors.getD v default).features.length)
    (hgood : ∀ j, j < k →
      ((m.vectors.getD v default).features.getD (j + 1) default).index =
        ((m.vectors.getD v default).features.getD j default).index + 1)
    (hbad : ((m.vectors.getD v default).features.getD (k + 1) default).index ≠
      ((m.vectors.getD v default).features.getD k default).index + 1) :
    tryFrom m = .error (.svm (.attributesUnordered
      ((m.vectors.getD v default).features.getD (k + 1) default).index
      ((m.vectors.getD v default).features.getD k default).index
      ((m.vectors.getD v default).features.getD (k + 1) default).value)) := by
  obtain ⟨hdr, vecs⟩ := m
  replace hvec : vecs = v0 :: vrest := hvec
  subst hvec
  replace hlab : hdr.nr_class ≤ hdr.label.length := hlab
  replace hnsv : hdr.nr_class ≤ hdr.nr_sv.length := hnsv
  replace hall : ∀ w ∈ (v0 :: vrest), w.features.length ≤ v0.features.length ∧
      w.coefs.length ≤ hdr.nr_class - 1 := hall
  replace hsum : (hdr.nr_sv.take hdr.nr_class).sum ≤ (v0 :: vrest).length := hsum
  replace hv : v < (hdr.nr_sv.take hdr.nr_class).sum := hv
  replace hprev : ∀ p, p < v →
      goodSteps (((v0 :: vrest) : List SupportVector).getD p default).features := hprev
  replace hk : k + 1 <
      (((v0 :: vrest) : List SupportVector).getD v default).features.length := hk
  replace hgood : ∀ j, j < k →
      ((((v0 :: vrest) : List SupportVector).getD v default).features.getD
        (j + 1) default).index =
      ((((v0 :: vrest) : List SupportVector).getD v default).features.getD
        j default).index + 1 := hgood
  replace hbad : ((((v0 :: vrest) : List SupportVector).getD v default).features.getD
      (k + 1) default).index ≠
    ((((v0 :: vrest) : List SupportVector).getD v default).features.getD
      k default).index + 1 := hbad
  show tryFrom ⟨hdr, v0 :: vrest⟩ = .error (.svm (.attributesUnordered
    ((((v0 :: vrest) : List SupportVector).getD v default).features.getD
      (k + 1) default).index
    ((((v0 :: vrest) : List SupportVector).getD v default).features.getD
      k default).index
    ((((v0 :: vrest) : List SupportVector).getD v default).features.getD
      (k + 1) default).value))
  -- the kernel construction succeeds
  have hkernel : ∃ kk, kernelFromHeader ⟨hdr, v0 :: vrest⟩ = .ok kk := by
    rcases hker with h | ⟨h, hg⟩
    · refine ⟨.linear, ?_⟩
      unfold kernelFromHeader
      rw [show (⟨hdr, v0 :: vrest⟩ : ModelFile).header = hdr from rfl, h]
      rw [if_neg (by decide), if_pos rfl]
    · obtain ⟨g, hg'⟩ := Option.isSome_iff_exists.mp hg
      refine ⟨.rbf g, ?_⟩
      unfold kernelFromHeader
      rw [show (⟨hdr, v0 :: vrest⟩ : ModelFile).header = hdr from rfl, h]
      rw [if_pos rfl]
      unfold rbfTryFrom
      rw [show (⟨hdr, v0 :: vrest⟩ : ModelFile).header = hdr from rfl, hg']
  obtain ⟨kk, hkernel⟩ := hkernel
  -- the class construction succeeds
  have hclasses := buildClasses_ok hdr.nr_class v0.features.length hdr.label hdr.nr_sv
    hlab hnsv
  -- every freshly built class record has the allocated shape
  have hshapes : ∀ p, p < ((List.range hdr.nr_class).map (fun i =>
      Class.with_parameters hdr.nr_class (hdr.nr_sv.getD i 0) v0.features.length
        (hdr.label.getD i 0))).length →
      ClassShape (((List.range hdr.nr_class).map (fun i =>
        Class.with_parameters hdr.nr_class (hdr.nr_sv.getD i 0) v0.features.length
          (hdr.label.getD i 0))).getD p default)
        hdr.nr_class (hdr.nr_sv.getD p 0) v0.features.length := by
    intro p hp
    rw [List.length_map, List.length_range] at hp
    rw [getD_map_range _ hdr.nr_class p default hp]
    refine ⟨rfl, ?_, rfl, ?_⟩
    · exact List.length_replicate _ _
    · exact List.length_replicate _ _
  -- the class loop fails at vector v
  have hpc := processClasses_first_bad hdr.nr_class v0.features.length (v0 :: vrest)
    hall
    ((List.range hdr.nr_class).map (fun i =>
      Class.with_parameters hdr.nr_class (hdr.nr_sv.getD i 0) v0.features.length
        (hdr.label.getD i 0)))
    hdr.nr_sv 0 v k
    (by rw [List.length_map, List.length_range]; exact hnsv)
    hshapes
    (by rw [List.length_map, List.length_range]; omega)
    (Nat.zero_le v)
    (by rw [List.length_map, List.length_range]; omega)
    (fun p _ hp2 => hprev p hp2)
    hk hgood hbad
  rw [tryFrom_reduce hdr v0 vrest _ kk hclasses hkernel, hpc]

/-- C4 (amended): once construction reaches the kernel match (first vector
exists, header lists long enough), any kernel type other than `rbf`/`linear`
makes `try_from` panic via `unimplemented!()` instead of returning an
`UnsupportedKernel` error. -/
theorem c4_unsupported_kernel_panics (m : ModelFile) (v0 : SupportVector)
    (vrest : List SupportVector)
    (hvec : m.vectors = v0 :: vrest)
    (hlab : m.header.nr_class ≤ m.header.label.length)
    (hnsv : m.header.nr_class ≤ m.header.nr_sv.length)
    (h1 : m.header.kernel_type ≠ "rbf")
    (h2 : m.header.kernel_type ≠ "linear") :
    tryFrom m = .error .panicked := by
  obtain ⟨hdr, vecs⟩ := m
  replace hvec : vecs = v0 :: vrest := hvec
  subst hvec
  replace hlab : hdr.nr_class ≤ hdr.label.length := hlab
  replace hnsv : hdr.nr_class ≤ hdr.nr_sv.length := hnsv
  replace h1 : hdr.kernel_type ≠ "rbf" := h1
  replace h2 : hdr.kernel_type ≠ "linear" := h2
  have hclasses := buildClasses_ok hdr.nr_class v0.features.length hdr.label hdr.nr_sv
    hlab hnsv
  have hker : kernelFromHeader ⟨hdr, v0 :: vrest⟩ = .error .panicked := by
    unfold kernelFromHeader
    rw [show (⟨hdr, v0 :: vrest⟩ : ModelFile).header = hdr from rfl]
    rw [if_neg h1, if_neg h2]
  simp only [tryFrom, hclasses, hker]

/-- C9 (amended): `try_from` takes `num_attributes` from the length of the
first support vector's feature list, but never checks later support vectors
against it — an input whose later vector has fewer attributes is accepted. -/
theorem c9_num_attributes_unchecked :
    (∀ (m : ModelFile) (svm : CSVM), tryFrom m = .ok svm →
      svm.num_attributes = (m.vectors.headD default).features.length) ∧
    tfIsOk (tryFrom ce9Input) = true := by
  constructor
  · intro m svm h
    obtain ⟨hdr, vecs⟩ := m
    unfold tryFrom at h
    cases vecs with
    | nil => exact Except.noConfusion h
    | cons v0 vrest =>
      simp only at h
      split at h
      · exact Except.noConfusion h
      · split at h
        · exact Except.noConfusion h
        · split at h
          · exact Except.noConfusion h
          · have := Except.ok.inj h
            rw [← this]
            rfl
  · rfl

/-- The model accepted from `ce9Input` despite its differing attribute
counts. -/
def ce9svm : CSVM :=
  match tryFrom ce9Input with
  | .ok s => s
  | .error _ => default

/-- Witness for C9 applied at the accepted inconsistent input. -/
theorem c9_num_attributes_unchecked_witness :
    ce9svm.num_attributes = (ce9Input.vectors.headD default).features.length :=
  c9_num_attributes_unchecked.1 ce9Input ce9svm rfl

/-- A model file with two support vectors in one class: the first stream is
contiguous, the second jumps from attribute index 1 to 3. -/
def ce2StepInput : ModelFile :=
  { header := { svm_type := "c_svc", kernel_type := "linear", gamma := none
                coef0 := none, degree := none, nr_class := 1, total_sv := 2
                label := [1], nr_sv := [2], rho := [], prob_a := none, prob_b := none }
    vectors := [{ coefs := [], features := [⟨1, 2⟩, ⟨2, 3⟩] },
                { coefs := [], features := [⟨1, 4⟩, ⟨3, 7⟩] }] }

/-- Witness for C2 at an input whose second support vector breaks with the
step 1 → 3. -/
theorem c2_attributes_unordered_witness :
    tryFrom ce2StepInput = .error (.svm (.attributesUnordered 3 1 7)) := by
  have h := c2_attributes_unordered ce2StepInput
    ⟨[], [⟨1, 2⟩, ⟨2, 3⟩]⟩ [⟨[], [⟨1, 4⟩, ⟨3, 7⟩]⟩] 1 0
    rfl (by decide) (by decide) (Or.inl rfl)
    (by decide) (by decide) (by decide)
    (by
      intro p hp
      have hp0 : p = 0 := by omega
      subst hp0
      intro j hj
      have hj' : j + 1 < 2 := hj
      have hj0 : j = 0 := by omega
      subst hj0
      decide)
    (by decide)
    (fun j hj => absurd hj (Nat.not_lt_zero j))
    (by decide)
  exact h

/-- Witness for C4 at the `sigmoid` input. -/
theorem c4_unsupported_kernel_panics_witness :
    tryFrom ce4Input = .error .panicked :=
  c4_unsupported_kernel_panics ce4Input ⟨[], [⟨1, 1⟩]⟩ [] rfl
    (by decide) (by decide) (by decide) (by decide)

/-! ## The predictor (`compute_kernel_values`, csvm.rs lines 47–59, and
`predict_value`, modelled from spec §4.6 — predict.rs is not vendored) -/

/-- Overwrite the first `lst.length` entries of row `i` in the flat buffer:
what a kernel's `compute` does to its output row (it writes one value per
support vector, leaving the rest of the row untouched). -/
def SimdOptimized.setRowPrefix (m : SimdOptimized) (i : ℕ) (lst : List ℚ) :
    SimdOptimized :=
  { m with data :=
      m.data.take (m.offset i 0) ++ lst ++ m.data.drop (m.offset i 0 + lst.length) }

/-- Modelled from the spec (§4.3): the fresh kernel values for one class — one
value `k(sv_r, features)` per support-vector row `r`.  The kernel evaluation
function `k` is a parameter of the embedding, since the kernel implementations
are not vendored; every claim below holds for an arbitrary `k`. -/
def kernelRow (k : List ℚ → List ℚ → ℚ) (cls : Class) (features : List ℚ) :
    List ℚ :=
  (List.range cls.num_sv).map (fun r => k (cls.support_vectors.row r) features)

/-- `CSVM::compute_kernel_values` (csvm.rs lines 47–59): for each class `i`,
the kernel writes its values into the head of row `i` of `kernel_values`. -/
def compute_kernel_values (k : List ℚ → List ℚ → ℚ) (svm : CSVM)
    (problem : Problem) : Problem :=
  let kv := (List.range svm.classes.length).foldl
    (fun kv i => kv.setRowPrefix i
      (kernelRow k (svm.classes.getD i default) problem.features))
    problem.kernel_values
  { problem with kernel_values := kv }

theorem dotSum_take (a : List ℚ) : ∀ (b : List ℚ),
    dotSum a b = dotSum a (b.take a.length) := by
  induction a with
  | nil => intro b; rfl
  | cons x xs ih =>
    intro b
    cases b with
    | nil => rfl
    | cons y ys =>
      simp only [dotSum, dot, List.zipWith_cons_cons, List.sum_cons, List.length_cons,
        List.take_succ_cons]
      have := ih ys
      simp only [dotSum, dot] at this
      rw [this]

theorem dotSum_congr_take (a b1 b2 : List ℚ)
    (h : b1.take a.length = b2.take a.length) : dotSum a b1 = dotSum a b2 := by
  rw [dotSum_take a b1, dotSum_take a b2, h]

theorem splice_getElem?_lt (d lst : List ℚ) (off x : ℕ)
    (hoff : off ≤ d.length) (hx : x < off) :
    (d.take off ++ lst ++ d.drop (off + lst.length))[x]? = d[x]? := by
  rw [List.append_assoc,
    List.getElem?_append_left (by simp only [List.length_take]; omega),
    List.getElem?_take_of_lt hx]

theorem splice_getElem?_mid (d lst : List ℚ) (off x : ℕ)
    (hoff : off ≤ d.length) (hx : x < lst.length) :
    (d.take off ++ lst ++ d.drop (off + lst.length))[off + x]? = lst[x]? := by
  rw [List.append_assoc,
    List.getElem?_append_right (by simp only [List.length_take]; omega)]
  have h1 : (d.take off).length = off := by simp only [List.length_take]; omega
  rw [h1, show off + x - off = x from by omega, List.getElem?_append_left hx]

theorem splice_getElem?_ge (d lst : List ℚ) (off x : ℕ)
    (hoff : off + lst.length ≤ d.length) (hx : off + lst.length ≤ x) :
    (d.take off ++ lst ++ d.drop (off + lst.length))[x]? = d[x]? := by
  have hlen : (d.take off ++ lst).length = off + lst.length := by
    simp only [List.length_append, List.length_take]
    omega
  rw [List.getElem?_append_right (by omega), hlen, List.getElem?_drop]
  congr 1
  omega

theorem setRowPrefix_data_length (m : SimdOptimized) (i : ℕ) (lst : List ℚ)
    (h : m.offset i 0 + lst.length ≤ m.data.length) :
    (m.setRowPrefix i lst).data.length = m.data.length := by
  simp only [SimdOptimized.setRowPrefix, List.length_append, List.length_take,
    List.length_drop]
  omega

theorem row_getElem? (m : SimdOptimized) (i x : ℕ) :
    (m.row i)[x]? = if x < m.vector_length then m.data[m.offset i 0 + x]? else none := by
  unfold SimdOptimized.row
  rcases Nat.lt_or_ge x m.vector_length with h | h
  · rw [if_pos h, List.getElem?_take_of_lt h, List.getElem?_drop]
  · rw [if_neg (by omega), List.getElem?_eq_none]
    simp only [List.length_take, List.length_drop]
    omega

theorem setRowPrefix_vector_length (m : SimdOptimized) (i : ℕ) (lst : List ℚ) :
    (m.setRowPrefix i lst).vector_length = m.vector_length := rfl

theorem setRowPrefix_offset (m : SimdOptimized) (i j a : ℕ) (lst : List ℚ) :
    (m.setRowPrefix i lst).offset j a = m.offset j a := rfl

/-- Entries of the written prefix of the row are the written values. -/
theorem setRowPrefix_row_getElem? (m : SimdOptimized) (i : ℕ) (lst : List ℚ)
    (hvl : lst.length ≤ m.vector_length)
    (hin : m.offset i 0 + m.vector_length ≤ m.data.length)
    (x : ℕ) (hx : x < lst.length) :
    ((m.setRowPrefix i lst).row i)[x]? = lst[x]? := by
  rw [row_getElem?, setRowPrefix_vector_length, setRowPrefix_offset,
    if_pos (by omega)]
  show (m.data.take (m.offset i 0) ++ lst ++
    m.data.drop (m.offset i 0 + lst.length))[m.offset i 0 + x]? = lst[x]?
  exact splice_getElem?_mid m.data lst (m.offset i 0) x (by omega) hx

/-- The written prefix of the row, truncated anywhere within the written part,
agrees with the written list. -/
theorem setRowPrefix_row_take (m : SimdOptimized) (i : ℕ) (lst : List ℚ)
    (hvl : lst.length ≤ m.vector_length)
    (hin : m.offset i 0 + m.vector_length ≤ m.data.length)
    (clen : ℕ) (hc : clen ≤ lst.length) :
    ((m.setRowPrefix i lst).row i).take clen = lst.take clen := by
  apply List.ext_getElem?
  intro x
  rcases Nat.lt_or_ge x clen with hx | hx
  · rw [List.getElem?_take_of_lt hx, List.getElem?_take_of_lt hx,
      setRowPrefix_row_getElem? m i lst hvl hin x (by omega)]
  · rw [List.getElem?_eq_none (by simp only [List.length_take]; omega),
      List.getElem?_eq_none (by simp only [List.length_take]; omega)]

/-- Rows other than the written one are unchanged. -/
theorem setRowPrefix_row_other (m : SimdOptimized) (i j : ℕ) (lst : List ℚ)
    (hvl : lst.length ≤ m.vector_length)
    (hin : m.offset i 0 + m.vector_length ≤ m.data.length)
    (hne : j ≠ i) :
    (m.setRowPrefix i lst).row j = m.row j := by
  apply List.ext_getElem?
  intro x
  rw [row_getElem?, row_getElem?, setRowPrefix_vector_length]
  rcases Nat.lt_or_ge x m.vector_length with hx | hx
  · rw [if_pos hx, if_pos hx, setRowPrefix_offset]
    show (m.data.take (m.offset i 0) ++ lst ++
      m.data.drop (m.offset i 0 + lst.length))[m.offset j 0 + x]? = _
    rcases Nat.lt_or_ge j i with hj | hj
    · apply splice_getElem?_lt m.data lst (m.offset i 0) _ (by omega)
      have h1 : (j + 1) * m.vector_length ≤ i * m.vector_length :=
        Nat.mul_le_mul_right _ (by omega)
      have h2 : (j + 1) * m.vector_length = j * m.vector_length + m.vector_length := by
        ring
      simp only [SimdOptimized.offset] at *
      omega
    · have hj' : i < j := by omega
      apply splice_getElem?_ge m.data lst (m.offset i 0) _ (by omega)
      have h1 : (i + 1) * m.vector_length ≤ j * m.vector_length :=
        Nat.mul_le_mul_right _ (by omega)
      have h2 : (i + 1) * m.vector_length = i * m.vector_length + m.vector_length := by
        ring
      simp only [SimdOptimized.offset] at *
      omega
  · rw [if_neg (by omega), if_neg (by omega)]

theorem kernel_fold_preserve (k : List ℚ → List ℚ → ℚ) (classes : List Class)
    (features : List ℚ) (i : ℕ) :
    ∀ (l : List ℕ) (kv : SimdOptimized),
      (∀ x ∈ l, (x + 1) * kv.vector_length ≤ kv.data.length ∧
        (kernelRow k (classes.getD x default) features).length ≤ kv.vector_length) →
      i ∉ l →
      (l.foldl (fun kv x => kv.setRowPrefix x
        (kernelRow k (classes.getD x default) features)) kv).row i = kv.row i := by
  intro l
  induction l with
  | nil => intro kv _ _; rfl
  | cons x l ih =>
    intro kv hsh hmem
    obtain ⟨hx1, hx2⟩ := hsh x (List.mem_cons_self ..)
    have hin : kv.offset x 0 + kv.vector_length ≤ kv.data.length := by
      simp only [SimdOptimized.offset]
      have : (x + 1) * kv.vector_length = x * kv.vector_length + kv.vector_length := by ring
      omega
    have hlen : (kv.setRowPrefix x (kernelRow k (classes.getD x default) features)).data.length
        = kv.data.length :=
      setRowPrefix_data_length _ _ _ (by simp only [SimdOptimized.offset] at hin ⊢; omega)
    have hsh' : ∀ y ∈ l,
        (y + 1) * (kv.setRowPrefix x (kernelRow k (classes.getD x default) features)).vector_length ≤
          (kv.setRowPrefix x (kernelRow k (classes.getD x default) features)).data.length ∧
        (kernelRow k (classes.getD y default) features).length ≤
          (kv.setRowPrefix x (kernelRow k (classes.getD x default) features)).vector_length := by
      intro y hy
      rw [setRowPrefix_vector_length, hlen]
      exact hsh y (List.mem_cons_of_mem _ hy)
    calc ((x :: l).foldl _ kv).row i
        = (kv.setRowPrefix x (kernelRow k (classes.getD x default) features)).row i :=
          ih _ hsh' (fun h => hmem (List.mem_cons_of_mem _ h))
      _ = kv.row i :=
          setRowPrefix_row_other _ _ _ _ hx2 hin (fun h => hmem (h ▸ List.mem_cons_self ..))

theorem kernel_fold_row_take (k : List ℚ → List ℚ → ℚ) (classes : List Class)
    (features : List ℚ) (i : ℕ) :
    ∀ (l : List ℕ) (kv : SimdOptimized),
      l.Nodup →
      (∀ x ∈ l, (x + 1) * kv.vector_length ≤ kv.data.length ∧
        (kernelRow k (classes.getD x default) features).length ≤ kv.vector_length) →
      i ∈ l →
      ∀ clen, clen ≤ (kernelRow k (classes.getD i default) features).length →
      ((l.foldl (fun kv x => kv.setRowPrefix x
        (kernelRow k (classes.getD x default) features)) kv).row i).take clen =
        (kernelRow k (classes.getD i default) features).take clen := by
  intro l
  induction l with
  | nil => intro kv _ _ h; exact absurd h (List.not_mem_nil _)
  | cons x l ih =>
    intro kv hnd hsh hmem clen hclen
    obtain ⟨hx1, hx2⟩ := hsh x (List.mem_cons_self ..)
    have hin : kv.offset x 0 + kv.vector_length ≤ kv.data.length := by
      simp only [SimdOptimized.offset]
      have : (x + 1) * kv.vector_length = x * kv.vector_length + kv.vector_length := by ring
      omega
    have hlen : (kv.setRowPrefix x (kernelRow k (classes.getD x default) features)).data.length
        = kv.data.length :=
      setRowPrefix_data_length _ _ _ (by simp only [SimdOptimized.offset] at hin ⊢; omega)
    have hsh' : ∀ y ∈ l,
        (y + 1) * (kv.setRowPrefix x (kernelRow k (classes.getD x default) features)).vector_length ≤
          (kv.setRowPrefix x (kernelRow k (classes.getD x default) features)).data.length ∧
        (kernelRow k (classes.getD y default) features).length ≤
          (kv.setRowPrefix x (kernelRow k (classes.getD x default) features)).vector_length := by
      intro y hy
      rw [setRowPrefix_vector_length, hlen]
      exact hsh y (List.mem_cons_of_mem _ hy)
    rcases List.mem_cons.mp hmem with rfl | htail
    · have hnotin : i ∉ l := (List.nodup_cons.mp hnd).1
      have hfold : ((i :: l).foldl (fun kv x => kv.setRowPrefix x
          (kernelRow k (classes.getD x default) features)) kv) =
          (l.foldl (fun kv x => kv.setRowPrefix x
            (kernelRow k (classes.getD x default) features))
            (kv.setRowPrefix i (kernelRow k (classes.getD i default) features))) := rfl
      rw [hfold, kernel_fold_preserve k classes features i l _ hsh' hnotin]
      exact setRowPrefix_row_take _ _ _ hx2 hin clen hclen
    · have hfold : ((x :: l).foldl (fun kv x => kv.setRowPrefix x
          (kernelRow k (classes.getD x default) features)) kv) =
          (l.foldl (fun kv x => kv.setRowPrefix x
            (kernelRow k (classes.getD x default) features))
            (kv.setRowPrefix x (kernelRow k (classes.getD x default) features))) := rfl
      rw [hfold]
      exact ih _ (List.nodup_cons.mp hnd).2 hsh' htail clen hclen

theorem row_length_le (m : SimdOptimized) (r : ℕ) : (m.row r).length ≤ m.vector_length := by
  unfold SimdOptimized.row
  simp only [List.length_take, List.length_drop]
  omega

theorem kernelRow_length (k : List ℚ → List ℚ → ℚ) (cls : Class) (features : List ℚ) :
    (kernelRow k cls features).length = cls.num_sv := by
  unfold kernelRow
  rw [List.length_map, List.length_range]

/-- The decision value computed from the scratch kernel matrix after phase 1
equals the value computed from the fresh kernel rows alone: the stale row tails
are never read because the dot products truncate at the coefficient rows. -/
theorem decisionValue_fresh (k : List ℚ → List ℚ → ℚ) (svm : CSVM) (q : Problem)
    (hkvec : q.kernel_values.data.length =
      svm.classes.length * q.kernel_values.vector_length)
    (hwf : ∀ c ∈ svm.classes, c.coefficients.vector_length ≤ c.num_sv ∧
      c.num_sv ≤ q.kernel_values.vector_length)
    (i j : ℕ) (hi : i < svm.classes.length) (hj : j < svm.classes.length) :
    decisionValue svm.classes svm.rho (compute_kernel_values k svm q).kernel_values i j =
      dotSum ((svm.classes.getD i default).coefficients.row (j - 1))
        (kernelRow k (svm.classes.getD i default) q.features)
      + dotSum ((svm.classes.getD j default).coefficients.row i)
          (kernelRow k (svm.classes.getD j default) q.features)
      - svm.rho.get i j := by
  have hshapes : ∀ x ∈ List.range svm.classes.length,
      (x + 1) * q.kernel_values.vector_length ≤ q.kernel_values.data.length ∧
      (kernelRow k (svm.classes.getD x default) q.features).length ≤
        q.kernel_values.vector_length := by
    intro x hx
    have hxn := List.mem_range.mp hx
    constructor
    · rw [hkvec]
      exact Nat.mul_le_mul_right _ (by omega)
    · rw [kernelRow_length]
      have hmem : svm.classes.getD x default ∈ svm.classes := by
        rw [List.getD_eq_getElem _ _ hxn]
        exact List.getElem_mem hxn
      exact (hwf _ hmem).2
  have hdot : ∀ (r : ℕ), r < svm.classes.length → ∀ (coef : List ℚ),
      coef.length ≤ (svm.classes.getD r default).num_sv →
      dotSum coef ((compute_kernel_values k svm q).kernel_values.row r) =
        dotSum coef (kernelRow k (svm.classes.getD r default) q.features) := by
    intro r hr coef hcoef
    apply dotSum_congr_take
    have := kernel_fold_row_take k svm.classes q.features r
      (List.range svm.classes.length) q.kernel_values (List.nodup_range _)
      hshapes (List.mem_range.mpr hr) coef.length
      (by rw [kernelRow_length]; exact hcoef)
    exact this
  have hclen : ∀ (r rr : ℕ), r < svm.classes.length →
      ((svm.classes.getD r default).coefficients.row rr).length ≤
        (svm.classes.getD r default).num_sv := by
    intro r rr hr
    have hmem : svm.classes.getD r default ∈ svm.classes := by
      rw [List.getD_eq_getElem _ _ hr]
      exact List.getElem_mem hr
    exact le_trans (row_length_le _ _) (hwf _ hmem).1
  unfold decisionValue
  rw [hdot i hi _ (hclen i (j - 1) hi), hdot j hj _ (hclen j i hj)]

/-- Modelled from the spec (§4.6 phase 3): the sigmoid-calibrated pairwise
probability is clamped into `(1e−7, 1 − 1e−7)`.  The sigmoid itself
(`1/(1+exp(a·d+b))`) is a parameter `sig` of the embedding since predict.rs is
not vendored and `exp` is transcendental; every claim holds for arbitrary
`sig`. -/
def clampProb (x : ℚ) : ℚ :=
  min (max x (1 / 10000000)) (1 - 1 / 10000000)

/-- Modelled from the spec (§4.6 phase 3): store `p_ij` in `pairwise[(i,j)]`
and `1 − p_ij` in `pairwise[(j,i)]` for every pair `i < j`; since all writes
target distinct cells, the pair loop is modelled as a pointwise rebuild of the
buffer (diagonal and out-of-range cells keep their previous contents). -/
def computePairwise (sig : ℚ → ℚ → ℚ → ℚ) (a b : Triangular) (n : ℕ)
    (problem : Problem) : Problem :=
  let pw := problem.pairwise
  let fresh := fun (r c : ℕ) =>
    if r < c then clampProb (sig (a.get r c) (b.get r c) (problem.decision_values.get r c))
    else 1 - clampProb (sig (a.get c r) (b.get c r) (problem.decision_values.get c r))
  let pwdata := (List.range pw.data.length).map (fun idx =>
    let r := idx / pw.vector_length
    let c := idx % pw.vector_length
    if r < n ∧ c < n ∧ r ≠ c then fresh r c else pw.data.getD idx 0)
  let pw' : SimdOptimized := ⟨pw.vectors, pw.attributes, pw.vector_length, pwdata⟩
  { problem with pairwise := pw' }

/-- Modelled from the spec (§4.6): the argmax index with ties broken by the
lowest index. -/
def argmaxIdx {α : Type} [LinearOrder α] (d : α) : List α → ℕ
  | [] => 0
  | x :: xs =>
    let r := argmaxIdx d xs
    if xs.getD r d ≤ x then 0 else r + 1

/-- Modelled from the spec (§4.6, §6.2): `predict_value` (predict.rs is not
vendored) — phase 1 kernel rows, phase 2 decision values and votes, and either
the vote argmax label or phase 3 (sigmoid calibration, coupling, posterior
argmax label).  Returns the error status together with the mutated problem. -/
def predict_value (k : List ℚ → List ℚ → ℚ) (sig : ℚ → ℚ → ℚ → ℚ)
    (svm : CSVM) (problem : Problem) : Except SVMError Unit × Problem :=
  let p1 := compute_kernel_values k svm problem
  let p2 := compute_decision_values svm p1
  match svm.probabilities with
  | none =>
    (Except.ok (), { p2 with label :=
      (svm.classes.getD (argmaxIdx 0 p2.vote) default).label })
  | some pr =>
    let p3 := computePairwise sig pr.a pr.b svm.classes.length p2
    match compute_multiclass_probabilities svm p3 with
    | .error e => (.error e, p3)
    | .ok p4 =>
      (Except.ok (), { p4 with label :=
        (svm.classes.getD (argmaxIdx 0 p4.probabilities) default).label })

theorem list_eq_of_getD {l1 l2 : List ℚ} (h1 : l1.length = l2.length)
    (h : ∀ x, x < l1.length → l1.getD x 0 = l2.getD x 0) : l1 = l2 := by
  apply List.ext_getElem?
  intro x
  rcases Nat.lt_or_ge x l1.length with hx | hx
  · rw [List.getElem?_eq_getElem hx, List.getElem?_eq_getElem (h1 ▸ hx)]
    have hh := h x hx
    rw [List.getD_eq_getElem l1 0 hx, List.getD_eq_getElem l2 0 (h1 ▸ hx)] at hh
    rw [hh]
  · rw [List.getElem?_eq_none hx, List.getElem?_eq_none (by omega)]

theorem computePairwise_getAt (sig : ℚ → ℚ → ℚ → ℚ) (a b : Triangular) (n : ℕ)
    (q : Problem) (hvl : q.pairwise.vector_length = n)
    (hdl : q.pairwise.data.length = n * n)
    (r c : ℕ) (hr : r < n) (hc : c < n) (hrc : r ≠ c) :
    (computePairwise sig a b n q).pairwise.getAt r c =
      if r < c then clampProb (sig (a.get r c) (b.get r c) (q.decision_values.get r c))
      else 1 - clampProb (sig (a.get c r) (b.get c r) (q.decision_values.get c r)) := by
  have hn : 0 < n := by omega
  unfold computePairwise SimdOptimized.getAt SimdOptimized.offset
  simp only
  have hidx : r * q.pairwise.vector_length + c < q.pairwise.data.length := by
    rw [hvl, hdl]
    have h1 : (r + 1) * n ≤ n * n := Nat.mul_le_mul_right _ (by omega)
    have h2 : (r + 1) * n = r * n + n := by ring
    omega
  rw [List.getD_eq_getElem?_getD, List.getElem?_map,
    List.getElem?_range (by simpa using hidx)]
  rw [show ((some (r * q.pairwise.vector_length + c)).map (fun idx =>
      if idx / q.pairwise.vector_length < n ∧ idx % q.pairwise.vector_length < n ∧
          idx / q.pairwise.vector_length ≠ idx % q.pairwise.vector_length then
        (fun r c =>
          if r < c then clampProb (sig (a.get r c) (b.get r c) (q.decision_values.get r c))
          else 1 - clampProb (sig (a.get c r) (b.get c r) (q.decision_values.get c r)))
          (idx / q.pairwise.vector_length) (idx % q.pairwise.vector_length)
      else q.pairwise.data.getD idx 0)).getD 0 =
    (if (r * q.pairwise.vector_length + c) / q.pairwise.vector_length < n ∧
        (r * q.pairwise.vector_length + c) % q.pairwise.vector_length < n ∧
        (r * q.pairwise.vector_length + c) / q.pairwise.vector_length ≠
          (r * q.pairwise.vector_length + c) % q.pairwise.vector_length then
      (fun r c =>
        if r < c then clampProb (sig (a.get r c) (b.get r c) (q.decision_values.get r c))
        else 1 - clampProb (sig (a.get c r) (b.get c r) (q.decision_values.get c r)))
        ((r * q.pairwise.vector_length + c) / q.pairwise.vector_length)
        ((r * q.pairwise.vector_length + c) % q.pairwise.vector_length)
    else q.pairwise.data.getD (r * q.pairwise.vector_length + c) 0) from rfl]
  have hdiv : (r * q.pairwise.vector_length + c) / q.pairwise.vector_length = r := by
    rw [hvl, mul_comm r n, Nat.mul_add_div hn, Nat.div_eq_of_lt hc]
    omega
  have hmod : (r * q.pairwise.vector_length + c) % q.pairwise.vector_length = c := by
    rw [hvl, mul_comm r n, Nat.mul_add_mod, Nat.mod_eq_of_lt hc]
  rw [hdiv, hmod, if_pos ⟨hr, hc, hrc⟩]

/-- The Q-building loop never writes outside the `n × n` block. -/
theorem buildQP_q_outside (n : ℕ) (r : ℕ → ℕ → ℚ) (p0 : List ℚ) :
    ∀ a b, (n ≤ a ∨ n ≤ b) → (buildQP n r p0).1 a b = 0 := by
  intro a b hab
  have h := forRange_inv
    (fun _ (st : (ℕ → ℕ → ℚ) × List ℚ) => st.1 a b = 0)
    0 n (buildStep n r) (fun _ _ => 0, p0) rfl
    ?_
  · exact h
  · intro t st ht0 htn hP
    rw [Nat.zero_add] at htn
    show (forRange (t + 1) (n - (t + 1)) (innerHigh r t)
      (forRange 0 t (innerLow r t) (upd st.1 t t 0))) a b = 0
    have hbase : (upd st.1 t t 0) a b = 0 := by
      rw [upd_ne _ _ _ _ _ _ (fun hc => by omega)]
      exact hP
    have hlow := forRange_inv (fun _ q => q a b = 0) 0 t (innerLow r t)
      (upd st.1 t t 0) hbase
      (fun j q hj0 hjt hq => by
        rw [Nat.zero_add] at hjt
        show (innerLow r t q j) a b = 0
        unfold innerLow
        rw [upd_ne _ _ _ _ _ _ (fun hc => by omega),
          upd_ne _ _ _ _ _ _ (fun hc => by omega)]
        exact hq)
    exact forRange_inv (fun _ q => q a b = 0) (t + 1) (n - (t + 1)) (innerHigh r t)
      _ hlow
      (fun j q hj0 hjn hq => by
        have hjn' : j < n := by omega
        show (innerHigh r t q j) a b = 0
        unfold innerHigh
        rw [upd_ne _ _ _ _ _ _ (fun hc => by omega),
          upd_ne _ _ _ _ _ _ (fun hc => by omega)]
        exact hq)

/-- Two pairwise matrices that agree off the diagonal of the `n × n` block
produce the same Q matrix. -/
theorem buildQP_q_congr (n : ℕ) (r1 r2 : ℕ → ℕ → ℚ) (p1 p2 : List ℚ)
    (hp1 : p1.length = n) (hp2 : p2.length = n)
    (hr : ∀ x y, x < n → y < n → x ≠ y → r1 x y = r2 x y) :
    (buildQP n r1 p1).1 = (buildQP n r2 p2).1 := by
  funext a b
  rcases Nat.lt_or_ge a n with ha | ha
  · rcases Nat.lt_or_ge b n with hb | hb
    · rw [(buildQP_spec n r1 p1 hp1).1 a b ha hb, (buildQP_spec n r2 p2 hp2).1 a b ha hb]
      unfold qSpec
      rcases eq_or_ne a b with rfl | hab
      · rw [if_pos rfl, if_pos rfl]
        congr 1
        apply List.map_congr_left
        intro j hj
        have hjmem := List.mem_filter.mp hj
        have hjn := List.mem_range.mp hjmem.1
        have hja : j ≠ a := by simpa using hjmem.2
        rw [hr j a hjn ha hja]
      · rw [if_neg hab, if_neg hab, hr b a hb ha (by omega), hr a b ha hb hab]
    · rw [buildQP_q_outside n r1 p1 a b (by omega), buildQP_q_outside n r2 p2 a b (by omega)]
  · rw [buildQP_q_outside n r1 p1 a b (by omega), buildQP_q_outside n r2 p2 a b (by omega)]

/-- The initial probability vectors coincide for any two problems sized for the
model. -/
theorem buildQP_p_congr (n : ℕ) (r1 r2 : ℕ → ℕ → ℚ) (p1 p2 : List ℚ)
    (hp1 : p1.length = n) (hp2 : p2.length = n) :
    (buildQP n r1 p1).2 = (buildQP n r2 p2).2 := by
  obtain ⟨_, hg1, hl1⟩ := buildQP_spec n r1 p1 hp1
  obtain ⟨_, hg2, hl2⟩ := buildQP_spec n r2 p2 hp2
  apply list_eq_of_getD (by rw [hl1, hl2])
  intro x hx
  rw [hl1] at hx
  rw [hg1 x hx, hg2 x hx]

/-- The vote components of the pair loop agree when the two kernel matrices
yield the same vote index at every processed pair. -/
theorem decision_fold_vote_congr (classes : List Class) (rho : Triangular)
    (kv1 kv2 : SimdOptimized) :
    ∀ (l : List (ℕ × ℕ)) (st1 st2 : Triangular × List ℕ),
      st1.2 = st2.2 →
      (∀ p ∈ l, voteIndex classes rho kv1 p = voteIndex classes rho kv2 p) →
      (l.foldl (decisionStep classes rho kv1) st1).2 =
        (l.foldl (decisionStep classes rho kv2) st2).2 := by
  intro l
  induction l with
  | nil => intro st1 st2 h _; exact h
  | cons p l ih =>
    intro st1 st2 h hvi
    apply ih
    · show (st1.2.set (voteIndex classes rho kv1 p)
        (st1.2.getD (voteIndex classes rho kv1 p) 0 + 1)) =
        (st2.2.set (voteIndex classes rho kv2 p)
          (st2.2.getD (voteIndex classes rho kv2 p) 0 + 1))
      rw [h, hvi p (List.mem_cons_self ..)]
    · intro q hq
      exact hvi q (List.mem_cons_of_mem _ hq)

/-- A problem correctly sized for a model, as produced by
`Problem::with_dimension` from the model's dimensions (§4.5): buffer shapes
match the class count, and every class's coefficient matrix fits its
support-vector count (true of every class built by `Class::with_parameters`). -/
def sameShapes (svm : CSVM) (p : Problem) : Prop :=
  p.vote.length = svm.classes.length ∧
  p.probabilities.length = svm.classes.length ∧
  p.kernel_values.data.length = svm.classes.length * p.kernel_values.vector_length ∧
  p.pairwise.vector_length = svm.classes.length ∧
  p.pairwise.data.length = svm.classes.length * svm.classes.length ∧
  (∀ c ∈ svm.classes, c.coefficients.vector_length ≤ c.num_sv ∧
    c.num_sv ≤ p.kernel_values.vector_length)

theorem compute_decision_values_get (svm : CSVM) (P : Problem) (i j : ℕ)
    (hij : i < j) (hj : j < svm.classes.length) :
    (compute_decision_values svm P).decision_values.get i j =
      decisionValue svm.classes svm.rho P.kernel_values i j :=
  dv_foldl_value svm.classes svm.rho P.kernel_values i j hij
    (pairs svm.classes.length) _ (fun p hp => (mem_pairs.mp hp).1) (pairs_nodup _)
    (mem_pairs.mpr ⟨hij, hj⟩)

theorem predict_value_none (k : List ℚ → List ℚ → ℚ) (sig : ℚ → ℚ → ℚ → ℚ)
    (svm : CSVM) (q : Problem) (hpr : svm.probabilities = none) :
    predict_value k sig svm q =
      (Except.ok (), { compute_decision_values svm (compute_kernel_values k svm q) with
        label := (svm.classes.getD (argmaxIdx 0
          (compute_decision_values svm (compute_kernel_values k svm q)).vote)
          default).label }) := by
  unfold predict_value
  rw [hpr]

theorem predict_value_some (k : List ℚ → List ℚ → ℚ) (sig : ℚ → ℚ → ℚ → ℚ)
    (svm : CSVM) (q : Problem) (pr : Probabilities)
    (hpr : svm.probabilities = some pr) :
    predict_value k sig svm q =
      (match compute_multiclass_probabilities svm
        (computePairwise sig pr.a pr.b svm.classes.length
          (compute_decision_values svm (compute_kernel_values k svm q))) with
      | .error e => (.error e, computePairwise sig pr.a pr.b svm.classes.length
          (compute_decision_values svm (compute_kernel_values k svm q)))
      | .ok p4 => (Except.ok (), { p4 with label :=
          (svm.classes.getD (argmaxIdx 0 p4.probabilities) default).label })) := by
  unfold predict_value
  rw [hpr]

/-- C7: the predictor is a function of the model and the features alone — for
any kernel evaluation `k` and sigmoid calibration `sig`, two problems sized for
the model with equal features produce the same error status, the same decision
values on every class pair, and (on success) the same label, whatever the
scratch buffers previously held.  Running it twice on the same problem is the
special case `q1 = q2`. -/
theorem c7_predict_deterministic (k : List ℚ → List ℚ → ℚ) (sig : ℚ → ℚ → ℚ → ℚ)
    (svm : CSVM) (q1 q2 : Problem)
    (h1 : sameShapes svm q1) (h2 : sameShapes svm q2)
    (hf : q1.features = q2.features) :
    (predict_value k sig svm q1).1 = (predict_value k sig svm q2).1 ∧
    (∀ i j, i < j → j < svm.classes.length →
      (predict_value k sig svm q1).2.decision_values.get i j =
        (predict_value k sig svm q2).2.decision_values.get i j) ∧
    ((predict_value k sig svm q1).1 = .ok () →
      (predict_value k sig svm q1).2.label = (predict_value k sig svm q2).2.label) := by
  obtain ⟨hv1, hp1, hk1, hpw1, hpd1, hwf1⟩ := h1
  obtain ⟨hv2, hp2, hk2, hpw2, hpd2, hwf2⟩ := h2
  have hdvfun : ∀ i j, i < svm.classes.length → j < svm.classes.length →
      decisionValue svm.classes svm.rho
        (compute_kernel_values k svm q1).kernel_values i j =
      decisionValue svm.classes svm.rho
        (compute_kernel_values k svm q2).kernel_values i j := by
    intro i j hi hj
    rw [decisionValue_fresh k svm q1 hk1 hwf1 i j hi hj,
      decisionValue_fresh k svm q2 hk2 hwf2 i j hi hj, hf]
  have hdv2 : ∀ i j, i < j → j < svm.classes.length →
      (compute_decision_values svm (compute_kernel_values k svm q1)).decision_values.get i j =
      (compute_decision_values svm (compute_kernel_values k svm q2)).decision_values.get i j := by
    intro i j hij hj
    rw [compute_decision_values_get svm _ i j hij hj,
      compute_decision_values_get svm _ i j hij hj,
      hdvfun i j (by omega) hj]
  have hvotes2 :
      (compute_decision_values svm (compute_kernel_values k svm q1)).vote =
      (compute_decision_values svm (compute_kernel_values k svm q2)).vote := by
    apply decision_fold_vote_congr
    · show set_all (compute_kernel_values k svm q1).vote 0 =
        set_all (compute_kernel_values k svm q2).vote 0
      unfold set_all
      rw [show (fun (_ : ℕ) => (0 : ℕ)) = Function.const ℕ 0 from rfl,
        List.map_const, List.map_const]
      rw [show (compute_kernel_values k svm q1).vote = q1.vote from rfl,
        show (compute_kernel_values k svm q2).vote = q2.vote from rfl, hv1, hv2]
    · intro p hp
      have hm := mem_pairs.mp hp
      unfold voteIndex
      rw [hdvfun p.1 p.2 (by omega) (by omega)]
  cases hpr : svm.probabilities with
  | none =>
    rw [predict_value_none k sig svm q1 hpr, predict_value_none k sig svm q2 hpr]
    refine ⟨rfl, ?_, ?_⟩
    · intro i j hij hj
      exact hdv2 i j hij hj
    · intro _
      show (svm.classes.getD (argmaxIdx 0
        (compute_decision_values svm (compute_kernel_values k svm q1)).vote) default).label = _
      rw [hvotes2]
  | some pr =>
    have hdvp3 : ∀ x y, x < svm.classes.length → y < svm.classes.length → x ≠ y →
        (computePairwise sig pr.a pr.b svm.classes.length
          (compute_decision_values svm (compute_kernel_values k svm q1))).pairwise.getAt x y =
        (computePairwise sig pr.a pr.b svm.classes.length
          (compute_decision_values svm (compute_kernel_values k svm q2))).pairwise.getAt x y := by
      intro x y hx hy hxy
      rw [computePairwise_getAt sig pr.a pr.b svm.classes.length _
          (by exact hpw1) (by exact hpd1) x y hx hy hxy,
        computePairwise_getAt sig pr.a pr.b svm.classes.length _
          (by exact hpw2) (by exact hpd2) x y hx hy hxy]
      rcases Nat.lt_or_ge x y with hlt | hge
      · rw [if_pos hlt, if_pos hlt, hdv2 x y hlt hy]
      · have hlt' : y < x := by omega
        rw [if_neg (by omega), if_neg (by omega), hdv2 y x hlt' hx]
    have hq3 : couplingQ svm (computePairwise sig pr.a pr.b svm.classes.length
        (compute_decision_values svm (compute_kernel_values k svm q1))) =
      couplingQ svm (computePairwise sig pr.a pr.b svm.classes.length
        (compute_decision_values svm (compute_kernel_values k svm q2))) := by
      unfold couplingQ
      exact buildQP_q_congr svm.classes.length _ _ _ _ (by exact hp1) (by exact hp2)
        (fun x y hx hy hxy => hdvp3 x y hx hy hxy)
    have hp3 : couplingP0 svm (computePairwise sig pr.a pr.b svm.classes.length
        (compute_decision_values svm (compute_kernel_values k svm q1))) =
      couplingP0 svm (computePairwise sig pr.a pr.b svm.classes.length
        (compute_decision_values svm (compute_kernel_values k svm q2))) := by
      unfold couplingP0
      exact buildQP_p_congr svm.classes.length _ _ _ _ (by exact hp1) (by exact hp2)
    rw [predict_value_some k sig svm q1 pr hpr, predict_value_some k sig svm q2 pr hpr]
    cases hres : probLoop svm.classes.length
        (couplingQ svm (computePairwise sig pr.a pr.b svm.classes.length
          (compute_decision_values svm (compute_kernel_values k svm q2))))
        (max 100 svm.classes.length)
        (couplingP0 svm (computePairwise sig pr.a pr.b svm.classes.length
          (compute_decision_values svm (compute_kernel_values k svm q2)))) with
    | error e =>
      have e1 : compute_multiclass_probabilities svm
          (computePairwise sig pr.a pr.b svm.classes.length
            (compute_decision_values svm (compute_kernel_values k svm q1))) = .error e := by
        unfold compute_multiclass_probabilities
        rw [hq3, hp3, hres]
        rfl
      have e2 : compute_multiclass_probabilities svm
          (computePairwise sig pr.a pr.b svm.classes.length
            (compute_decision_values svm (compute_kernel_values k svm q2))) = .error e := by
        unfold compute_multiclass_probabilities
        rw [hres]
        rfl
      rw [e1, e2]
      refine ⟨rfl, ?_, ?_⟩
      · intro i j hij hj
        exact hdv2 i j hij hj
      · intro hcontr
        exact absurd hcontr (by simp)
    | ok pf =>
      have e1 : compute_multiclass_probabilities svm
          (computePairwise sig pr.a pr.b svm.classes.length
            (compute_decision_values svm (compute_kernel_values k svm q1))) =
          .ok { computePairwise sig pr.a pr.b svm.classes.length
            (compute_decision_values svm (compute_kernel_values k svm q1)) with
            probabilities := pf } := by
        unfold compute_multiclass_probabilities
        rw [hq3, hp3, hres]
        rfl
      have e2 : compute_multiclass_probabilities svm
          (computePairwise sig pr.a pr.b svm.classes.length
            (compute_decision_values svm (compute_kernel_values k svm q2))) =
          .ok { computePairwise sig pr.a pr.b svm.classes.length
            (compute_decision_values svm (compute_kernel_values k svm q2)) with
            probabilities := pf } := by
        unfold compute_multiclass_probabilities
        rw [hres]
        rfl
      rw [e1, e2]
      refine ⟨rfl, ?_, ?_⟩
      · intro i j hij hj
        exact hdv2 i j hij hj
      · intro _
        rfl

/-- A problem for `svmW` with dirty scratch buffers. -/
def qdirty : Problem :=
  { features := [1]
    kernel_values := ⟨2, 1, 1, [9, 9]⟩
    vote := [5, 6]
    decision_values := Triangular.with_dimension 2 99
    pairwise := ⟨2, 2, 2, [7, 7, 7, 7]⟩
    probabilities := [3, 4]
    label := 42 }

/-- A problem for `svmW` with clean scratch buffers. -/
def qclean : Problem :=
  { features := [1]
    kernel_values := ⟨2, 1, 1, [0, 0]⟩
    vote := [0, 0]
    decision_values := Triangular.with_dimension 2 0
    pairwise := SimdOptimized.with_dimension 2 2 0
    probabilities := [0, 0]
    label := 0 }

/-- Witness for C7: dirty and clean scratch give the same prediction on the
concrete two-class model with the linear kernel. -/
theorem c7_predict_deterministic_witness :
    (predict_value dotSum (fun _ _ _ => 0) svmW qdirty).1 =
      (predict_value dotSum (fun _ _ _ => 0) svmW qclean).1 ∧
    (∀ i j, i < j → j < svmW.classes.length →
      (predict_value dotSum (fun _ _ _ => 0) svmW qdirty).2.decision_values.get i j =
        (predict_value dotSum (fun _ _ _ => 0) svmW qclean).2.decision_values.get i j) ∧
    ((predict_value dotSum (fun _ _ _ => 0) svmW qdirty).1 = .ok () →
      (predict_value dotSum (fun _ _ _ => 0) svmW qdirty).2.label =
        (predict_value dotSum (fun _ _ _ => 0) svmW qclean).2.label) :=
  c7_predict_deterministic dotSum (fun _ _ _ => 0) svmW qdirty qclean
    (by unfold sameShapes; decide) (by unfold sameShapes; decide) rfl

end Ffsvm
